import Mathlib

/-!
Verification development for the diagnosis-candidate ranking engine of the
nurse_app repository (src/diagnosis.py).

The Python module is embedded shallowly:

* machine floats are modelled as exact rationals (`ℚ`); the two transcendental
  library calls (`math.log` in `idf`, `math.sqrt` in `cos_dict`) are threaded
  through as function parameters of the embedding (`Ext.logQ`, `Ext.sqrtQ`),
  since the program only pipes their outputs onward; for the cosine-bound
  claims the same generic definition is instantiated over `ℝ` with `Real.sqrt`;
* `unicodedata.normalize("NFKC", ·)` and `str.lower` are Unicode-table driven
  library functions; they are threaded as parameters (`Ext.nfkc`, `Ext.lower`)
  and theorems that depend on their table-level behaviour state the needed
  Unicode conformance facts as explicit hypotheses;
* the optional rapidfuzz/difflib string-ratio function (chosen at import time
  in the source) is the parameter `Ext.sim`;
* the external classification service (Ollama) is an oracle `Net`: an
  availability bit plus a deterministic mapping from (system prompt, user
  prompt) to an optional extracted JSON value, `none` meaning every attempt of
  `ask_ollama_json` failed to produce a JSON value;
* Python exceptions are modelled with `Except PyErr`; Python dynamic JSON
  values with the inductive `JVal`;
* the two persisted response caches are explicit association lists keyed by
  the (collision-free) content tuples that the source feeds to sha1;
* the bounded thread pools write disjoint result slots (one per row index) and
  the run-level configuration keeps the default budgets (0 = unbounded), so a
  stage's outcome is the deterministic per-slot function of the oracle; where
  CPython iterates a `set` (hash order) the embedding fixes the insertion
  order, a deterministic refinement that is observationally equal wherever a
  theorem below depends on it.
-/

set_option maxRecDepth 40000

namespace NurseDiag

/-! ## Python-level character and string primitives -/

/-- Python `str.isspace` / regex `\s` character set (also what `str.strip()`
and `str.split()` strip on).  Covers the ASCII whitespace, the C1 controls
Python treats as space, and the Unicode space separators including the
ideographic space U+3000 that `norm`'s regex lists explicitly. -/
def pyIsSpace (c : Char) : Bool :=
  let n := c.toNat
  (0x9 ≤ n && n ≤ 0xd) || n == 0x20 || (0x1c ≤ n && n ≤ 0x1f) ||
  n == 0x85 || n == 0xa0 || n == 0x1680 || (0x2000 ≤ n && n ≤ 0x200a) ||
  n == 0x2028 || n == 0x2029 || n == 0x202f || n == 0x205f || n == 0x3000

/-- ASCII digit. -/
def isAsciiDigit (c : Char) : Bool := '0' ≤ c && c ≤ '9'

/-- Full-width digit ０-９ (U+FF10–U+FF19). -/
def isFullwidthDigit (c : Char) : Bool := 0xff10 ≤ c.toNat && c.toNat ≤ 0xff19

/-- Python regex `\d` (Unicode decimal digit) restricted to the digit ranges
that occur in this development: ASCII and full-width forms. -/
def pyIsDigit (c : Char) : Bool := isAsciiDigit c || isFullwidthDigit c

/-- Numeric value of a digit accepted by `pyIsDigit`. -/
def digitVal (c : Char) : Nat :=
  if isAsciiDigit c then c.toNat - '0'.toNat else c.toNat - 0xff10

/-- ASCII letter. -/
def isAsciiAlpha (c : Char) : Bool :=
  ('a' ≤ c && c ≤ 'z') || ('A' ≤ c && c ≤ 'Z')

/-- Kanji range 一-龥 (U+4E00–U+9FA5), as used by the source's `KANJI` class. -/
def isKanji (c : Char) : Bool := 0x4e00 ≤ c.toNat && c.toNat ≤ 0x9fa5

/-- Hiragana range ぁ-ん (U+3041–U+3093). -/
def isHira (c : Char) : Bool := 0x3041 ≤ c.toNat && c.toNat ≤ 0x3093

/-- Katakana range ァ-ン (U+30A1–U+30F3), the `JA_SEQ`/`parse_demo` class
(which excludes the long-vowel mark ー). -/
def isKataNarrow (c : Char) : Bool := 0x30a1 ≤ c.toNat && c.toNat ≤ 0x30f3

/-- Katakana range ァ-ヶー (U+30A1–U+30F6 plus U+30FC), the `WORD_PAT` class. -/
def isKataWide (c : Char) : Bool :=
  (0x30a1 ≤ c.toNat && c.toNat ≤ 0x30f6) || c.toNat == 0x30fc

/-- The `JA_SEQ` regex class `[一-龥ぁ-んァ-ン]`. -/
def isJaSeq (c : Char) : Bool := isKanji c || isHira c || isKataNarrow c

/-- Python regex word character (`\w`, used for `\b`), restricted to the
character repertoire of this development: ASCII alphanumerics, underscore,
kana (including ー), kanji, and full-width alphanumerics. -/
def pyIsWord (c : Char) : Bool :=
  isAsciiAlpha c || isAsciiDigit c || c == '_' ||
  (0x3041 ≤ c.toNat && c.toNat ≤ 0x3096) ||
  (0x30a1 ≤ c.toNat && c.toNat ≤ 0x30fa) || c.toNat == 0x30fc ||
  (0x4e00 ≤ c.toNat && c.toNat ≤ 0x9fff) ||
  isFullwidthDigit c ||
  (0xff21 ≤ c.toNat && c.toNat ≤ 0xff3a) || (0xff41 ≤ c.toNat && c.toNat ≤ 0xff5a)

/-- Case-insensitive character comparison (regex `re.IGNORECASE`), for the
ASCII and full-width letters this development meets. -/
def ciEq (a b : Char) : Bool :=
  let fold := fun (c : Char) =>
    if 'A' ≤ c && c ≤ 'Z' then c.toNat + 32
    else if 0xff21 ≤ c.toNat && c.toNat ≤ 0xff3a then c.toNat + 32
    else c.toNat
  fold a == fold b

/-- First index at which `needle` occurs in `hay` (Python `str.find`,
`-1` becoming `none`).  The empty needle matches at 0, as in Python. -/
def findSub (hay needle : List Char) : Option Nat :=
  match hay with
  | [] => if needle = [] then some 0 else none
  | _ :: t =>
    if needle.isPrefixOf hay then some 0
    else (findSub t needle).map (· + 1)

/-- Substring containment (Python `needle in hay`). -/
def containsSub (hay needle : List Char) : Bool := (findSub hay needle).isSome

/-- Containment lifted to `String` (Python `sub in s`). -/
def strContains (s sub : String) : Bool := containsSub s.data sub.data

/-- Python `any(w in t for w in ws)`. -/
def anyContains (t : String) (ws : List String) : Bool :=
  ws.any (fun w => strContains t w)

/-- Python `str.strip()` (strip `pyIsSpace` characters from both ends). -/
def stripList (l : List Char) : List Char :=
  ((l.dropWhile pyIsSpace).reverse.dropWhile pyIsSpace).reverse

/-- `str.strip()` on `String`. -/
def pyStrip (s : String) : String := ⟨stripList s.data⟩

/-- Scanner for `re.sub(r"[　\s]+", " ", t)`; the flag records whether the
scanner is inside a whitespace run (already emitted as one space). -/
def collapseGo : Bool → List Char → List Char
  | _, [] => []
  | inWs, c :: cs =>
    if pyIsSpace c then
      if inWs then collapseGo true cs else ' ' :: collapseGo true cs
    else c :: collapseGo false cs

/-- One pass of `re.sub(r"[　\s]+", " ", t)`: every maximal whitespace run
becomes a single ASCII space. -/
def collapseList (l : List Char) : List Char := collapseGo false l

/-- Whitespace collapsing on `String`. -/
def collapseWs (s : String) : String := ⟨collapseList s.data⟩

/-- Scanner for `str.split()`; `acc` is the reversed current word. -/
def splitWsGo : List Char → List Char → List (List Char)
  | acc, [] => if acc = [] then [] else [acc.reverse]
  | acc, c :: cs =>
    if pyIsSpace c then
      if acc = [] then splitWsGo [] cs else acc.reverse :: splitWsGo [] cs
    else splitWsGo (c :: acc) cs

/-- Python `str.split()` (split on whitespace runs, dropping empties). -/
def splitWsList (l : List Char) : List (List Char) := splitWsGo [] l

/-- `str.split()` on `String`. -/
def pySplitWs (s : String) : List String := (splitWsList s.data).map (fun l => ⟨l⟩)

/-- One step of Python's `seen`-set deduplication idiom. -/
def dedupStep (acc : List String × List String) (t : String) :
    List String × List String :=
  if t ∈ acc.2 then acc else (acc.1 ++ [t], t :: acc.2)

/-- Order-preserving deduplication (Python's `seen`-set idiom). -/
def dedupFirst (l : List String) : List String :=
  (l.foldl dedupStep ([], [])).1

/-- Python `sep.join(xs)`. -/
def joinSep (sep : String) : List String → String
  | [] => ""
  | [x] => x
  | x :: xs => x ++ sep ++ joinSep sep xs

/-- Code-point-wise `<` on strings (Python string comparison). -/
def strLt (a b : String) : Bool :=
  let rec go : List Char → List Char → Bool
    | [], [] => false
    | [], _ :: _ => true
    | _ :: _, [] => false
    | x :: xs, y :: ys =>
      if x.toNat < y.toNat then true
      else if y.toNat < x.toNat then false
      else go xs ys
  go a.data b.data

/-- Python `sorted` on strings (stable insertion sort; total order makes
stability irrelevant here). -/
def sortStrings (l : List String) : List String :=
  let rec ins (x : String) : List String → List String
    | [] => [x]
    | y :: ys => if strLt y x then y :: ins x ys else x :: y :: ys
  l.foldr ins []

/-! ## External library functions threaded as parameters

`Ext` bundles the Unicode-table and numeric library functions the module
imports: `unicodedata.normalize("NFKC", ·)`, `str.lower`, the
rapidfuzz/difflib ratio `_sim` (the source picks one of two implementations
at import time), and the float `math.log` / `math.sqrt` used by the TF-IDF
index.  Every theorem below quantifies over `Ext` or instantiates it with
values that agree with the real libraries on the evaluated inputs. -/
structure Ext where
  nfkc : String → String
  lower : String → String
  sim : String → String → ℚ
  logQ : ℚ → ℚ
  sqrtQ : ℚ → ℚ

/-- `Ext` instance for concrete traces whose strings are NFKC-stable and
lower-case (id agrees with the real maps there) and whose executed paths
never consult `sim`, `logQ` or `sqrtQ`. -/
def extId : Ext := ⟨id, id, fun _ _ => 0, fun _ => 0, fun _ => 0⟩

/-! ## Source constants (src/diagnosis.py, parameter block) -/

def W_DEF_SIM : ℚ := 2
def W_COARSE_AI : ℚ := 7/2
def W_FINE_AI : ℚ := 9/2
def W_RULE_DC : ℚ := 8/5
def W_RULE_RF : ℚ := 6/5
def W_RULE_RK : ℚ := 7/5
def W_HINT_RESP : ℚ := 1
def W_CAT_MATCH : ℚ := 4/5

def P_SETTING_MISMATCH : ℚ := 4/5
def P_MIN_HITS_WEAK : ℚ := 4/5
def P_CONTRADICT : ℚ := 1

def TOKEN_MINLEN : Nat := 2
def FUZZY_THRESHOLD : ℚ := 43/50

def AI_TOPK : Nat := 40
def COARSE_MIN_PASS : ℚ := 3/10
def FINE_MIN_PASS : ℚ := 7/20
def MIN_DEF_SIM_KEEP : ℚ := 1/20
def MIN_RULE_SCORE_KEEP : ℚ := 3/5
def OUT_TOP_FRAC : ℚ := 1/5
def AI_SNIPPET_CHARS : Nat := 1500

def OLLAMA_MODEL : String := "qwen2.5:7b-instruct"

/-! ## Text normalizer (`nfkc`, `norm`) -/

/-- `norm`: NFKC fold, lower-case, collapse whitespace runs, strip. -/
def norm (E : Ext) (s : String) : String :=
  if s = "" then "" else pyStrip (collapseWs (E.lower (E.nfkc s)))

/-! ## Term splitting, synonym table, fuzzy polarity matcher -/

/-- Split a char list on single separator characters, keeping empty chunks
(Python `re.split` with a single-char class). -/
def splitOnCharsGo (seps : List Char) : List Char → List Char → List (List Char)
  | acc, [] => [acc.reverse]
  | acc, c :: cs =>
    if c ∈ seps then acc.reverse :: splitOnCharsGo seps [] cs
    else splitOnCharsGo seps (c :: acc) cs

def splitOnChars (seps : List Char) (l : List Char) : List (List Char) :=
  splitOnCharsGo seps [] l

/-- The inner separator class of `split_terms`: `[、,;／/・]`. -/
def punctSeps : List Char := ['、', ',', ';', '／', '/', '・']

/-- Split on `[、,;／/・]|[　\s]+`: single punctuation separators or whole
whitespace runs; the flag tracks a pending whitespace run. -/
def splitInnerGo : Bool → List Char → List Char → List (List Char)
  | _, acc, [] => [acc.reverse]
  | prevWs, acc, c :: cs =>
    if c ∈ punctSeps then acc.reverse :: splitInnerGo false [] cs
    else if pyIsSpace c then
      if prevWs then splitInnerGo true acc cs
      else acc.reverse :: splitInnerGo true [] cs
    else (fun _ => splitInnerGo false (c :: acc) cs) prevWs

def splitInner (l : List Char) : List (List Char) := splitInnerGo false [] l

/-- `split_terms`: split a raw delimited field into atomic phrases. -/
def splitTerms (E : Ext) (s : String) : List String :=
  if s = "" then []
  else
    let chunks := splitOnChars ['|', '｜'] s.data
    let parts := chunks.flatMap (fun ch =>
      (splitInner ch).filterMap (fun sub =>
        let t := pyStrip (E.nfkc ⟨sub⟩)
        if t ≠ "" ∧ TOKEN_MINLEN ≤ t.length then some t else none))
    dedupFirst parts

/-- `SYNONYMS` table. -/
def SYNONYMS : List (String × List String) :=
  [("疼痛", ["痛い", "痛み", "苦痛", "圧痛", "腰痛", "腹痛", "胸痛", "頭痛", "創部痛", "痛覚過敏"]),
   ("呼吸困難", ["息苦しさ", "息切れ", "呼吸苦", "呼吸困難感", "起坐呼吸", "労作時呼吸困難"]),
   ("不安", ["心配", "落ち着かない", "そわそわ", "緊張", "恐れ", "恐怖"]),
   ("倦怠感", ["だるい", "疲労", "しんどい", "易疲労", "脱力"]),
   ("脱水", ["口渇", "尿量低下", "皮膚乾燥", "尿濃縮", "飲水不足"]),
   ("転倒リスク", ["ふらつき", "歩行不安定", "易転倒", "失神既往"]),
   ("嚥下障害", ["dysphagia", "誤嚥", "むせ", "咽頭残留", "嚥下機能低下"])]

/-- `expand_terms`: the term itself plus every synonym class it belongs to.
The source materializes a Python set; the embedding fixes the insertion
order (term first, then each matching class in table order, deduplicated). -/
def expandTerms (E : Ext) (term : String) : List String :=
  let t := E.nfkc term
  dedupFirst (t :: SYNONYMS.flatMap (fun kv =>
    if t = kv.1 ∨ t ∈ kv.2 then kv.1 :: kv.2 else []))

/-- `OK_WORDS`: negation / normalcy vocabulary. -/
def OK_WORDS : List String :=
  ["なし", "ない", "良好", "維持", "保た", "正常", "安定", "問題なし", "みられず", "陰性", "改善"]

/-- `BAD_WORDS`: worsening vocabulary (reported only). -/
def BAD_WORDS : List String :=
  ["悪化", "不良", "低下", "障害", "困難", "不足", "増悪", "異常", "陽性", "上昇", "増加"]

/-- `_is_ok_window`: an OK word occurs inside `text[max(0,idx-12) : idx+12]`. -/
def isOkWindow (text : List Char) (idx : Nat) : Bool :=
  let a := idx - 12
  let b := min text.length (idx + 12)
  let win := (text.drop a).take (b - a)
  OK_WORDS.any (fun w => containsSub win w.data)

/-- Containment pass of the per-term search in `fuzzy_hits_with_polarity`:
first expansion whose normalized form occurs in the text. -/
def findByContain (E : Ext) (text : List Char) : List String → Option Nat
  | [] => none
  | e :: es =>
    let en := norm E e
    if en = "" then findByContain E text es
    else
      match findSub text en.data with
      | some i => some i
      | none => findByContain E text es

/-- Fuzzy pass: first expansion with a token of the text whose similarity
ratio reaches `FUZZY_THRESHOLD`; the reported index is `max(find(token),0)`. -/
def findByFuzzy (E : Ext) (text : List Char) (toks : List String) :
    List String → Option Nat
  | [] => none
  | e :: es =>
    let en := norm E e
    if en = "" then findByFuzzy E text toks es
    else
      match toks.find? (fun tok => FUZZY_THRESHOLD ≤ E.sim en tok) with
      | some tok => some ((findSub text tok.data).getD 0)
      | none => findByFuzzy E text toks es

/-- The per-term search of `fuzzy_hits_with_polarity`: containment over the
expansions first, then fuzzy token similarity. -/
def findTermIdx (E : Ext) (text : List Char) (toks : List String)
    (term : String) : Option Nat :=
  let exps := expandTerms E term
  match findByContain E text exps with
  | some i => some i
  | none => findByFuzzy E text toks exps

/-- One term's classification step in `fuzzy_hits_with_polarity`: a found
term joins the affirmed list unless an OK word sits in its ±12 window. -/
def fuzzyStep (E : Ext) (textNorm : String) (toks : List String)
    (acc : List String × List String) (term : String) :
    List String × List String :=
  match findTermIdx E textNorm.data toks term with
  | none => acc
  | some idx =>
    if isOkWindow textNorm.data idx then (acc.1, acc.2 ++ [term])
    else (acc.1 ++ [term], acc.2)

/-- `fuzzy_hits_with_polarity`: returns (affirmed hits, normal/negated hits),
each deduplicated in insertion order. -/
def fuzzyHitsWithPolarity (E : Ext) (textNorm : String) (terms : List String) :
    List String × List String :=
  (dedupFirst (terms.foldl (fuzzyStep E textNorm (pySplitWs textNorm)) ([], [])).1,
   dedupFirst (terms.foldl (fuzzyStep E textNorm (pySplitWs textNorm)) ([], [])).2)

/-- `JP_STOP` stop words for definition-term extraction. -/
def JP_STOP : List String :=
  ["こと", "もの", "ため", "および", "また", "など", "よう", "これ", "それ",
   "にて", "により", "について", "とは", "的"]

/-- One `WORD_PAT` match attempt at the head of the list: the regex
alternatives in order (kanji run ≥2, katakana(ー) run ≥2, hiragana run ≥3,
Latin word ≥3 with hyphens, Latin+digit token). -/
def wordPatAt (l : List Char) : Option (List Char) :=
  let kanji := l.takeWhile isKanji
  if 2 ≤ kanji.length then some kanji else
  let kata := l.takeWhile isKataWide
  if 2 ≤ kata.length then some kata else
  let hira := l.takeWhile isHira
  if 3 ≤ hira.length then some hira else
  match l with
  | c :: cs =>
    if isAsciiAlpha c then
      let tail1 := cs.takeWhile (fun x => isAsciiAlpha x || x == '-')
      if 2 ≤ tail1.length then some (c :: tail1) else
      match cs with
      | d :: ds =>
        if isAsciiDigit d then
          let tail2 := ds.takeWhile (fun x => isAsciiAlpha x || isAsciiDigit x || x == '-')
          if 1 ≤ tail2.length then some (c :: d :: tail2) else none
        else none
      | [] => none
    else none
  | [] => none

/-- `WORD_PAT.finditer`: successive non-overlapping leftmost matches. -/
def wordPatGo : Nat → List Char → List (List Char)
  | 0, _ => []
  | _ + 1, [] => []
  | fuel + 1, c :: cs =>
    match wordPatAt (c :: cs) with
    | some tok => tok :: wordPatGo fuel (List.drop tok.length (c :: cs))
    | none => wordPatGo fuel cs

def wordPatAll (l : List Char) : List (List Char) := wordPatGo l.length l

/-- `extract_def_terms`: up to `maxTerms` distinct `WORD_PAT` tokens of the
NFKC-folded definition text, stop words and short tokens removed. -/
def extractDefTerms (E : Ext) (defText : String) (maxTerms : Nat) : List String :=
  let terms := (wordPatAll (E.nfkc defText).data).map (fun l => pyStrip ⟨l⟩)
  let kept := terms.filter (fun w =>
    w ≠ "" && !(JP_STOP.contains w) && decide (TOKEN_MINLEN ≤ w.length))
  (dedupFirst kept).take maxTerms

/-! ## Definition catalogue rows

The loader (`load_nanda_rows`) coerces every cell to a stripped string with
missing/NaN cells becoming `""`; a loaded row is therefore a record of
strings (`class` is spelled `cls`, `judge` kept for completeness). -/
structure Row where
  code : String := ""
  label : String := ""
  definition : String := ""
  defining_characteristics : String := ""
  related_factors : String := ""
  risk_factors : String := ""
  priority_hint : String := ""
  primary_focus : String := ""
  secondary_focus : String := ""
  care_target : String := ""
  anatomical_site : String := ""
  age_min : String := ""
  age_max : String := ""
  clinical_course : String := ""
  diagnosis_state : String := ""
  situational_constraints : String := ""
  domain : String := ""
  cls : String := ""
  judge : String := ""
deriving DecidableEq

/-! ## Settings / categories / demographics (`parse_setting` etc.) -/

def SETTING_KW : List (String × List String) :=
  [("ICU", ["ICU", "HCU", "集中治療", "人工呼吸器", "挿管", "人工呼吸"]),
   ("在宅", ["在宅", "訪問", "家屋", "家族介護"]),
   ("外来", ["外来", "クリニック"]),
   ("精神", ["精神科", "うつ", "不安障害", "幻覚", "妄想", "向精神薬"]),
   ("術後", ["術後", "手術後", "POD", "ドレーン", "創部"]),
   ("リハ", ["リハ", "リハビリ", "PT", "OT", "ST"])]

def CATEGORY_KW : List (String × List String) :=
  [("呼吸", ["呼吸", "気道", "酸素", "SpO2", "喘", "RR", "息切", "酸素化", "airway", "breathing", "oxygenation", "COPD", "喘息"]),
   ("循環", ["循環", "ショック", "血圧", "SBP", "MAP", "脈拍", "HR", "出血", "末梢冷感", "circulation"]),
   ("排泄", ["排尿", "排便", "失禁", "尿閉", "便秘", "下痢", "ストーマ", "カテーテル", "尿量"]),
   ("栄養", ["栄養", "食事", "食欲", "経口", "嚥下", "摂食", "摂取", "飲水", "脱水", "経管", "BMI", "体重"]),
   ("活動/ADL", ["歩行", "移動", "ADL", "更衣", "起居", "セルフケア", "活動", "耐久", "リハ", "PT", "OT", "ST"]),
   ("睡眠/休息", ["睡眠", "不眠", "入眠", "中途覚醒", "休息", "昼夜逆転"]),
   ("安全", ["転倒", "転落", "誤嚥", "出血リスク", "皮膚損傷", "褥瘡", "感染予防", "安全", "拘束"]),
   ("疼痛", ["痛み", "疼痛", "NRS", "鎮痛"]),
   ("皮膚/創傷", ["褥瘡", "発赤", "びらん", "皮膚", "スキン", "創部", "創傷", "ドレッシング", "滲出"]),
   ("感染", ["感染", "発熱", "抗菌薬", "白血球", "CRP", "敗血症"]),
   ("精神/情緒", ["不安", "うつ", "混乱", "不穏", "幻覚", "妄想", "ストレス", "気分"]),
   ("知識/自己管理", ["教育", "説明", "理解", "自己管理", "アドヒアランス", "服薬", "指導", "知識不足"]),
   ("妊娠/産科", ["妊娠", "産褥", "分娩", "胎児", "授乳", "母乳", "産科"]),
   ("コミュニケーション", ["コミュニケーション", "意思疎通", "聴力", "視力", "言語"]),
   ("手術/周術期", ["術前", "術後", "手術", "麻酔", "POD", "ドレーン", "創部"])]

/-- `parse_setting`: care-context tags whose keyword lists hit the NFKC text.
The source stores them in a Python set used only for membership and joins;
the embedding keeps the table's insertion order. -/
def parseSetting (E : Ext) (text : String) : List String :=
  let t := E.nfkc text
  (SETTING_KW.filter (fun kv => anyContains t kv.2)).map (·.1)

/-- `extract_categories_from_text`. -/
def extractCategoriesFromText (E : Ext) (text : String) : List String :=
  let t := E.nfkc text
  (CATEGORY_KW.filter (fun kv => anyContains t kv.2)).map (·.1)

/-- `extract_categories_from_row`: categories of the joined focus/domain/
class/label/definition fields. -/
def extractCategoriesFromRow (E : Ext) (r : Row) : List String :=
  extractCategoriesFromText E (joinSep " "
    [r.primary_focus, r.secondary_focus, r.domain, r.cls, r.label, r.definition])

/-- Demographics derived by `parse_demo`. -/
structure Demo where
  sex : Option String
  age : Option Int
  has_family : Bool
deriving DecidableEq

/-- Hand-compiled search for `(?:\b|[^ぁ-んァ-ン一-龥])男(?:性)?\b` (and the
female variant): the sex kanji preceded by a word boundary or a
non-kana/kanji character, optionally followed by 性, then a word boundary.
The greedy optional 性 admits no fallback: when 性 follows, the boundary must
come after it (性 is a word character). -/
def sexWordGo (sexChar : Char) : Option Char → List Char → Bool
  | _, [] => false
  | prev, c :: cs =>
    (if c = sexChar then
      let preOk := match prev with
        | none => true
        | some pc => !pyIsWord pc || !isJaSeq pc
      let postOk := match cs with
        | '性' :: rest =>
          match rest with
          | [] => true
          | d :: _ => !pyIsWord d
        | [] => true
        | d :: _ => !pyIsWord d
      preOk && postOk
    else false) || sexWordGo sexChar (some c) cs

def sexWordSearch (sexChar : Char) (l : List Char) : Bool := sexWordGo sexChar none l

/-- Numeric value of a digit run. -/
def digitsVal (ds : List Char) : Nat := ds.foldl (fun a c => 10 * a + digitVal c) 0

/-- `(\d{1,3})\s*歳` at the head of the list: greedy 3-to-1 digits, optional
whitespace, then 歳. -/
def ageAt (l : List Char) : Option Int :=
  let run := l.takeWhile pyIsDigit
  if run = [] then none
  else
    let tryLen := fun (n : Nat) =>
      if n ≤ run.length then
        let rest := (l.drop n).dropWhile pyIsSpace
        match rest with
        | '歳' :: _ => some ((digitsVal (run.take n) : Int))
        | _ => none
      else none
    ((tryLen 3).orElse (fun _ => tryLen 2)).orElse (fun _ => tryLen 1)

/-- Leftmost match of the age pattern. -/
def ageSearch : List Char → Option Int
  | [] => none
  | c :: cs =>
    match ageAt (c :: cs) with
    | some v => some v
    | none => ageSearch cs

def FAMILY_KW : List String :=
  ["家族", "妻", "夫", "母", "父", "娘", "息子", "介護者", "保護者", "親", "配偶者"]

def FEMALE_EXTRA_KW : List String := ["妊娠", "産褥", "授乳", "母乳"]

/-- `parse_demo`: sex (female markers override male, as the source assigns
male first and female second), age, family involvement. -/
def parseDemo (E : Ext) (text : String) : Demo :=
  let t := E.nfkc text
  let maleHit := sexWordSearch '男' t.data || strContains t "♂"
  let femaleHit := sexWordSearch '女' t.data || strContains t "♀" ||
    anyContains t FEMALE_EXTRA_KW
  let sex := if femaleHit then some "F" else if maleHit then some "M" else none
  ⟨sex, ageSearch t.data, anyContains t FAMILY_KW⟩

/-! ## Vitals parsing (`parse_vitals`) -/

/-- `(\d+(?:\.\d+)?)` at the head: greedy digits, optional fraction. -/
def numAt (l : List Char) : Option ℚ :=
  let ds := l.takeWhile pyIsDigit
  if ds = [] then none
  else
    let intval : ℚ := (digitsVal ds : ℚ)
    match l.drop ds.length with
    | '.' :: r2 =>
      let fs := r2.takeWhile pyIsDigit
      if fs = [] then some intval
      else some (intval + (digitsVal fs : ℚ) / ((10 : ℚ) ^ fs.length))
    | _ => some intval

/-- Consume a literal case-insensitively; return the rest on success. -/
def matchLitCi : List Char → List Char → Option (List Char)
  | [], rest => some rest
  | _ :: _, [] => none
  | p :: ps, c :: cs => if ciEq p c then matchLitCi ps cs else none

/-- `\s*[:=]?\s*(\d+(?:\.\d+)?)` after a matched alternative. -/
def fnumSuffix (l : List Char) : Option ℚ :=
  let l1 := l.dropWhile pyIsSpace
  let l2 := match l1 with
    | c :: cs => if c = ':' || c = '=' then cs else l1
    | [] => l1
  numAt (l2.dropWhile pyIsSpace)

/-- Leftmost case-insensitive `fnum` search: at each position try the
alternatives in regex order, then the numeric suffix. -/
def fnumGo (alts : List (List Char)) : List Char → Option ℚ
  | [] => none
  | c :: cs =>
    match alts.findSome? (fun a => (matchLitCi a (c :: cs)).bind fnumSuffix) with
    | some v => some v
    | none => fnumGo alts cs

def fnumSearch (alts : List String) (text : String) : Option ℚ :=
  fnumGo (alts.map (·.data)) text.data

/-- `\b(\d{2,3})\s*/\s*(\d{2,3})\b` at the head (word boundary via `prev`).
Backtracking collapses: a digit run longer than 3 can never satisfy the
continuation, so each group must consume its entire run of length 2 or 3. -/
def bpAt (prev : Option Char) (l : List Char) : Option (ℚ × ℚ) :=
  let boundary := match prev with
    | none => true
    | some pc => !pyIsWord pc
  if !boundary then none
  else
    let r1 := l.takeWhile pyIsDigit
    if r1.length < 2 || 3 < r1.length then none
    else
      match (l.drop r1.length).dropWhile pyIsSpace with
      | '/' :: rest2 =>
        let rest3 := rest2.dropWhile pyIsSpace
        let r2 := rest3.takeWhile pyIsDigit
        if r2.length < 2 || 3 < r2.length then none
        else
          let after := rest3.drop r2.length
          let endOk := match after with
            | [] => true
            | d :: _ => !pyIsWord d
          if endOk then some ((digitsVal r1 : ℚ), (digitsVal r2 : ℚ)) else none
      | _ => none

def bpGo (prev : Option Char) : List Char → Option (ℚ × ℚ)
  | [] => none
  | c :: cs =>
    match bpAt prev (c :: cs) with
    | some v => some v
    | none => bpGo (some c) cs

def bpSearch (text : String) : Option (ℚ × ℚ) := bpGo none text.data

/-- `(?:nrs|疼痛(?:スケール)?)\D{0,6}(\d+(?:\.\d+)?)`: after the alternative,
at most six non-digits, then a number. -/
def nrsSuffix (l : List Char) : Option ℚ :=
  let nd := l.takeWhile (fun c => !pyIsDigit c)
  if nd.length ≤ 6 then numAt (l.drop nd.length) else none

def nrsGo (alts : List (List Char)) : List Char → Option ℚ
  | [] => none
  | c :: cs =>
    match alts.findSome? (fun a => (matchLitCi a (c :: cs)).bind nrsSuffix) with
    | some v => some v
    | none => nrsGo alts cs

def nrsSearch (text : String) : Option ℚ :=
  nrsGo (["nrs", "疼痛スケール", "疼痛"].map (·.data)) text.data

/-- Parsed vitals; `none` = not found (never zero-defaulted). -/
structure Vitals where
  T : Option ℚ
  HR : Option ℚ
  RR : Option ℚ
  SpO2 : Option ℚ
  SBP : Option ℚ
  DBP : Option ℚ
  MAP : Option ℚ
  NRS : Option ℚ
deriving DecidableEq

/-- `parse_vitals` on the raw (un-normalized) text, as in the source. -/
def parseVitals (text : String) : Vitals :=
  let T := fnumSearch ["体温", "t"] text
  let HR := fnumSearch ["hr", "心拍", "脈拍"] text
  let RR := fnumSearch ["rr", "呼吸数"] text
  let SpO2 := fnumSearch ["spo2", "ｓｐｏ２", "サチュ"] text
  let bp := bpSearch text
  let SBP := match bp with
    | some p => some p.1
    | none => fnumSearch ["sbp", "収縮期", "上の血圧"] text
  let DBP := match bp with
    | some p => some p.2
    | none => fnumSearch ["dbp", "拡張期", "下の血圧"] text
  let MAP := match SBP, DBP with
    | some s, some d => some ((s + 2 * d) / 3)
    | _, _ => none
  ⟨T, HR, RR, SpO2, SBP, DBP, MAP, nrsSearch text⟩

/-! ## Prompt trimming (`_trim_assess`) -/

/-- Match of `◆スクリー.*?アセスメント([\s\S]*?)◆データ分析` at the head:
the lazy dot cannot cross a newline, the lazy `[\s\S]*?` can. -/
def trimMatchAt (s : List Char) : Option (List Char) :=
  if ("◆スクリー".data).isPrefixOf s then
    let rest := s.drop 5
    let seg := rest.takeWhile (fun c => c ≠ '\n')
    match findSub seg ("アセスメント".data) with
    | some a =>
      let j := 5 + a + 6
      match findSub (s.drop j) ("◆データ分析".data) with
      | some b => some (s.take (j + b + 6))
      | none => none
    | none => none
  else none

def trimSearch : List Char → Option (List Char)
  | [] => none
  | c :: cs =>
    match trimMatchAt (c :: cs) with
    | some g => some g
    | none => trimSearch cs

/-- `_trim_assess`: the screened-assessment block if present, truncated to
`AI_SNIPPET_CHARS` with an ellipsis. -/
def trimAssess (E : Ext) (src : String) : String :=
  let t := E.nfkc src
  let core : String := match trimSearch t.data with
    | some g => ⟨g⟩
    | none => t
  if AI_SNIPPET_CHARS < core.length then (⟨core.data.take AI_SNIPPET_CHARS⟩ : String) ++ "…"
  else core

/-! ## Rounding and number formatting (Python `round`, `%.1f`) -/

/-- Round to the nearest integer, ties to even (Python bankers' rounding,
idealized over exact rationals). -/
def roundHalfEvenZ (q : ℚ) : Int :=
  if q - ((⌊q⌋ : Int) : ℚ) < 1/2 then ⌊q⌋
  else if 1/2 < q - ((⌊q⌋ : Int) : ℚ) then ⌊q⌋ + 1
  else if ⌊q⌋ % 2 = 0 then ⌊q⌋ else ⌊q⌋ + 1

/-- Python `round(q, n)`. -/
def roundTo (n : Nat) (q : ℚ) : ℚ :=
  (roundHalfEvenZ (q * (10 : ℚ) ^ n) : ℚ) / (10 : ℚ) ^ n

/-- Python `f"{q:.1f}"` for the non-negative amounts shown in reasons. -/
def fmt1 (q : ℚ) : String :=
  let n := roundHalfEvenZ (q * 10)
  toString (n / 10) ++ "." ++ toString (n % 10)

/-! ## TF-IDF index and cosine (`tokenize`, `tf`, `idf`, `cos_dict`) -/

/-- `ja_char_ngrams`: overlapping 2–4 grams of a (whitespace-free) run. -/
def jaCharNgrams (seq : List Char) : List (List Char) :=
  let s := seq.filter (fun c => !pyIsSpace c)
  [2, 3, 4].flatMap (fun n =>
    (List.range (s.length + 1 - n)).map (fun i => (s.drop i).take n))

/-- `JA_SEQ.finditer`: maximal runs of the kanji/kana class. -/
def jaRunsGo : List Char → List Char → List (List Char)
  | acc, [] => if acc = [] then [] else [acc.reverse]
  | acc, c :: cs =>
    if isJaSeq c then jaRunsGo (c :: acc) cs
    else if acc = [] then jaRunsGo [] cs
    else acc.reverse :: jaRunsGo [] cs

def jaRuns (l : List Char) : List (List Char) := jaRunsGo [] l

/-- `EN_SEQ.finditer` (`[a-zA-Z][a-zA-Z\-]+`): Latin tokens of length ≥ 2. -/
def enSeqGo : Nat → List Char → List (List Char)
  | 0, _ => []
  | _ + 1, [] => []
  | fuel + 1, c :: cs =>
    if isAsciiAlpha c then
      let tail := cs.takeWhile (fun x => isAsciiAlpha x || x == '-')
      if 1 ≤ tail.length then (c :: tail) :: enSeqGo fuel (cs.drop tail.length)
      else enSeqGo fuel cs
    else enSeqGo fuel cs

def enSeq (l : List Char) : List (List Char) := enSeqGo l.length l

/-- `re.findall(r"[a-zA-Z]{3,}", ·)`: maximal Latin runs of length ≥ 3. -/
def alphaRunsGo : List Char → List Char → List (List Char)
  | acc, [] => if 3 ≤ acc.length then [acc.reverse] else []
  | acc, c :: cs =>
    if isAsciiAlpha c then alphaRunsGo (c :: acc) cs
    else if 3 ≤ acc.length then acc.reverse :: alphaRunsGo [] cs
    else alphaRunsGo [] cs

def alphaRuns3 (l : List Char) : List (List Char) := alphaRunsGo [] l

/-- `tokenize`: Japanese character n-grams, Latin tokens, Latin-word
bigrams; stop words removed; first 120 tokens kept. -/
def tokenize (E : Ext) (text : String) : List String :=
  let lowT := E.lower text
  let jaToks := (jaRuns text.data).flatMap
    (fun r => (jaCharNgrams r).map (fun l => (⟨l⟩ : String)))
  let enToks := (enSeq lowT.data).map (fun l => (⟨l⟩ : String))
  let words := (alphaRuns3 lowT.data).map (fun l => (⟨l⟩ : String))
  let bigrams := (words.zip words.tail).map (fun p => p.1 ++ "_" ++ p.2)
  let stop : List String := ["こと", "もの", "ため", "および", "また", "とは", "的", "など", "にくい"]
  let toks := (jaToks ++ enToks ++ bigrams).filter
    (fun x => decide (2 ≤ x.length) && !stop.contains x)
  toks.take 120

/-- The IDF dictionary: its key set and the smoothed weight function
`log((N+1)/(df+1)) + 1` (the float log is the parameter `Ext.logQ`). -/
structure IdfMap where
  keys : List String
  val : String → ℚ

/-- `idf` over the per-definition token lists. -/
def idf (E : Ext) (lists : List (List String)) : IdfMap :=
  ⟨dedupFirst (lists.flatMap dedupFirst),
   fun w =>
     let N : ℚ := (lists.length : ℚ)
     let dfw : ℚ := ((lists.filter (fun toks => toks.contains w)).length : ℚ)
     E.logQ ((N + 1) / (dfw + 1)) + 1⟩

/-- A sparse vector (Python dict of weights): its key set and values. -/
structure VecK (K : Type) where
  keys : Finset String
  val : String → K

/-- `tfidf_vec`: term frequency times IDF weight over the tokens present in
the IDF dictionary. -/
def tfidfVec (tokens : List String) (m : IdfMap) : VecK ℚ :=
  ⟨((dedupFirst tokens).filter (fun w => m.keys.contains w)).toFinset,
   fun w => ((tokens.count w : ℚ)) * m.val w⟩

/-- `cos_dict`, generic in the scalar field and the square-root function:
0 for an empty vector, cosine over the intersection of present keys
otherwise, 0 again when either norm is zero. -/
def cosDict {K : Type} [Field K] [DecidableEq K] (sqrt : K → K)
    (a b : VecK K) : K :=
  if a.keys = ∅ ∨ b.keys = ∅ then 0
  else
    let dot := (a.keys ∩ b.keys).sum (fun k => a.val k * b.val k)
    let na := sqrt (a.keys.sum (fun k => a.val k * a.val k))
    let nb := sqrt (b.keys.sum (fun k => b.val k * b.val k))
    if na = 0 ∨ nb = 0 then 0 else dot / (na * nb)

/-- `cos_dict` over the reals with the exact square root (the idealization
of the float computation used for the bound claims). -/
noncomputable def cosDictR (a b : VecK ℝ) : ℝ :=
  @cosDict ℝ _ (Classical.decEq ℝ) Real.sqrt a b

/-- `cos_dict` over exact rationals with the float-sqrt parameter, as used
inside `collect`. -/
def cosDictQ (E : Ext) (a b : VecK ℚ) : ℚ := cosDict E.sqrtQ a b

/-- `build_definition_space` (the pure recomputation path; the pickle cache
only memoizes this value). -/
def buildDefinitionSpace (E : Ext) (rows : List Row) : IdfMap × List (VecK ℚ) :=
  let defTokens := rows.map (fun r => tokenize E (E.nfkc r.definition))
  let m := idf E defTokens
  (m, defTokens.map (fun t => tfidfVec t m))

/-! ## Rule scoring (`score_match_blocks`) -/

/-- The `loose` evidence bundle (keys 定義語/診断指標/関連因子/危険因子). -/
structure Loose where
  defTerms : List String
  dc : List String
  rf : List String
  rk : List String
deriving DecidableEq

def Loose.empty : Loose := ⟨[], [], [], []⟩

/-- `score_match_blocks`: fuzzy/synonym hits with negation polarity,
pain-scale and respiratory/circulatory hint bonuses; returns
(raw score, evidence, reasons). -/
def scoreMatchBlocks (E : Ext) (text : String) (r : Row) :
    ℚ × Loose × List String :=
  let t := norm E text
  let dcTerms := splitTerms E r.defining_characteristics
  let rfTerms := splitTerms E r.related_factors
  let rkTerms := splitTerms E r.risk_factors
  let pdc := fuzzyHitsWithPolarity E t dcTerms
  let prf := fuzzyHitsWithPolarity E t rfTerms
  let prk := fuzzyHitsWithPolarity E t rkTerms
  let base0 : ℚ := W_RULE_DC * (pdc.1.length : ℚ) + W_RULE_RF * (prf.1.length : ℚ)
    + W_RULE_RK * (prk.1.length : ℚ)
  let reasons0 : List String :=
    if pdc.2 ≠ [] ∨ prf.2 ≠ [] ∨ prk.2 ≠ [] then
      ["正常/陰性と判断: DC" ++ toString pdc.2.length ++ " RF" ++
        toString prf.2.length ++ " RK" ++ toString prk.2.length]
    else []
  let v := parseVitals text
  let step1 : ℚ × List String :=
    if strContains r.label "痛" then
      match v.NRS with
      | some n =>
        if 7 ≤ n then (base0 + 3/2, reasons0 ++ ["数値:NRS≥7"])
        else if 4 ≤ n then (base0 + 4/5, reasons0 ++ ["数値:NRS≥4"])
        else (base0, reasons0)
      | none => (base0, reasons0)
    else (base0, reasons0)
  let hint := norm E r.priority_hint
  let spo2low := match v.SpO2 with
    | some s => s ≠ 0 && decide (s < 90)
    | none => false
  let maplow := match v.MAP with
    | some m => m ≠ 0 && decide (m < 65)
    | none => false
  let step2 : ℚ :=
    if anyContains hint ["呼吸", "airway", "breathing"] then
      step1.1 + W_HINT_RESP * (1 + (if spo2low then 1 else 0))
    else step1.1
  let step3 : ℚ :=
    if anyContains hint ["循環", "circulation"] then
      step2 + W_HINT_RESP * (1 + (if maplow then 1 else 0))
    else step2
  let loose : Loose := ⟨extractDefTerms E r.definition 16, pdc.1, prf.1, prk.1⟩
  (step3, loose, step1.2)

/-! ## Hard filters and soft penalties -/

/-- `row_care_target_ok` (strict mode, as configured in the source). -/
def rowCareTargetOk (r : Row) (demo : Demo) : Bool × String :=
  let ct := pyStrip r.care_target
  if ct = "" then (true, "")
  else if anyContains ct ["家族", "介護者", "保護者", "親", "配偶者"] && !demo.has_family then
    (false, "ケア対象が家族だが本文に家族介入記載なし")
  else (true, "")

/-- Python `int(s)` on a stripped cell, `none` on parse failure. -/
def pyIntOfString (s : String) : Option Int :=
  let t := stripList s.data
  let core := match t with
    | '+' :: r => (1, r)
    | '-' :: r => (-1, r)
    | _ => ((1 : Int), t)
  if core.2 ≠ [] ∧ core.2.all pyIsDigit then some (core.1 * (digitsVal core.2 : Int))
  else none

/-- `int(cell) if cell.strip() else None`, exceptions giving `None`. -/
def parseAgeBound (s : String) : Option Int :=
  if pyStrip s = "" then none else pyIntOfString s

/-- `row_age_ok` (strict mode). -/
def rowAgeOk (r : Row) (demo : Demo) : Bool × String :=
  let amin := parseAgeBound r.age_min
  let amax := parseAgeBound r.age_max
  match demo.age with
  | none => (true, "")
  | some age =>
    if amin = none ∧ amax = none then (true, "")
    else
      match amin with
      | some m =>
        if age < m then (false, "年齢" ++ toString age ++ "<最小" ++ toString m)
        else match amax with
          | some mx =>
            if mx < age then (false, "年齢" ++ toString age ++ ">最大" ++ toString mx)
            else (true, "")
          | none => (true, "")
      | none =>
        match amax with
        | some mx =>
          if mx < age then (false, "年齢" ++ toString age ++ ">最大" ++ toString mx)
          else (true, "")
        | none => (true, "")

def FEMALE_ANAT_KW : List String :=
  ["子宮", "卵巣", "膣", "会陰", "産褥", "授乳", "母乳", "乳房", "乳腺", "妊娠", "産科"]

def MALE_ANAT_KW : List String := ["前立腺", "精巣", "陰嚢"]

/-- `row_sex_ok` (strict mode). -/
def rowSexOk (r : Row) (demo : Demo) : Bool × String :=
  let txt := joinSep " " [r.label, r.definition, r.anatomical_site]
  let femaleFlag := anyContains txt FEMALE_ANAT_KW
  let maleFlag := anyContains txt MALE_ANAT_KW
  if femaleFlag && demo.sex == some "M" then (false, "男性×女性特異診断")
  else if maleFlag && demo.sex == some "F" then (false, "女性×男性特異診断")
  else (true, "")

/-- `row_category_ok` (strict mode): fails only when both sides resolve to
non-empty, disjoint category sets. -/
def rowCategoryOk (E : Ext) (r : Row) (assessCats : List String) : Bool × String :=
  let rowCats := extractCategoriesFromRow E r
  if assessCats = [] ∨ rowCats = [] then (true, "")
  else
    let inter := assessCats.filter (fun c => rowCats.contains c)
    if inter ≠ [] then
      (true, "カテゴリ一致(" ++ joinSep ", " (sortStrings inter) ++ ")")
    else
      (false, "カテゴリ不一致(本文:" ++ joinSep "/" (sortStrings assessCats) ++
        " vs 候補:" ++ joinSep "/" (sortStrings rowCats) ++ ")")

/-- `penalty_setting`: care settings the row's text implies but the
assessment lacks. -/
def penaltySetting (E : Ext) (r : Row) (assessSettings : List String) : ℚ × String :=
  let txt := E.nfkc (joinSep " "
    [r.situational_constraints, r.domain, r.cls, r.priority_hint, r.definition])
  let req := (SETTING_KW.filter (fun kv => anyContains txt kv.2)).map (·.1)
  if req = [] then (0, "")
  else
    let lack := req.filter (fun k => !assessSettings.contains k)
    if lack = [] then (0, "")
    else (P_SETTING_MISMATCH, "場面根拠弱(" ++ joinSep ", " lack ++ ")")

/-- `penalty_contradict`: respiratory/pain diagnoses with no supporting
vocabulary and normal vitals. -/
def penaltyContradict (E : Ext) (assess : String) (r : Row) : ℚ × String :=
  let t := norm E assess
  let v := parseVitals assess
  let lbl := r.label ++ " " ++ r.definition
  let respCase :=
    if anyContains lbl ["呼吸", "酸素", "気道", "SpO2", "息切", "喘"] then
      let noWords := !(anyContains t ["呼吸", "息", "SpO2", "喘", "RR"])
      let spo2ok := match v.SpO2 with
        | some s => decide (95 ≤ s)
        | none => false
      let rrok := match v.RR with
        | some rr => decide (12 ≤ rr) && decide (rr ≤ 20)
        | none => false
      noWords && (spo2ok || rrok)
    else false
  if respCase then (P_CONTRADICT, "呼吸所見/語彙が弱く矛盾")
  else if anyContains lbl ["痛", "疼痛", "pain"] &&
      !(anyContains t ["痛", "NRS", "鎮痛"]) then
    (P_CONTRADICT, "疼痛所見/語彙が弱い")
  else (0, "")

/-! ## Semantic classifier gateway (`ai_coarse`, `ai_fine`, caches)

`ask_ollama_json` is modelled end-to-end by `Net.ask`: `none` means that all
retry attempts failed to produce a JSON value (connection error, timeout, or
no parsable JSON in the reply); `some v` is the extracted JSON value.  The
availability probe (`ollama_available`, a GET) and the chat POST are recorded
in a request trace so that "cache consulted before any network call" is a
statement about the trace. -/

/-- Dynamic JSON values (the result of Python `json.loads`). -/
inductive JVal where
  | null
  | bool (b : Bool)
  | num (q : ℚ)
  | str (s : String)
  | arr (l : List JVal)
  | obj (l : List (String × JVal))

/-- Python truthiness of a JSON value. -/
def JVal.truthy : JVal → Bool
  | .null => false
  | .bool b => b
  | .num q => decide (q ≠ 0)
  | .str s => s ≠ ""
  | .arr l => !l.isEmpty
  | .obj l => !l.isEmpty

/-- `dict.get(k, d)`. -/
def jGet (l : List (String × JVal)) (k : String) (d : JVal) : JVal :=
  match l.find? (fun kv => kv.1 == k) with
  | some kv => kv.2
  | none => d

/-- The Python exception classes the gateway can raise through. -/
inductive PyErr where
  | attributeError
  | typeError
  | valueError
deriving DecidableEq

/-- Python `float(s)` on a string: optional sign, decimal digits with an
optional fractional part and exponent (`inf`/`nan` spellings omitted — they
do not occur in this development). -/
def pyFloatOfString (s : String) : Option ℚ :=
  let t := stripList s.data
  let signed : ℚ × List Char := match t with
    | '+' :: r => (1, r)
    | '-' :: r => (-1, r)
    | _ => (1, t)
  let withExp := fun (m : ℚ) (rest : List Char) =>
    match rest with
    | [] => some (signed.1 * m)
    | e :: r3 =>
      if e = 'e' ∨ e = 'E' then
        let esigned : Int × List Char := match r3 with
          | '+' :: r4 => (1, r4)
          | '-' :: r4 => (-1, r4)
          | _ => (1, r3)
        let ed := esigned.2.takeWhile pyIsDigit
        if ed ≠ [] ∧ esigned.2.drop ed.length = [] then
          some (signed.1 * m * (10 : ℚ) ^ (esigned.1 * (digitsVal ed : Int)))
        else none
      else none
  let d1 := signed.2.takeWhile pyIsDigit
  let r1 := signed.2.drop d1.length
  match r1 with
  | '.' :: r2 =>
    let d2 := r2.takeWhile pyIsDigit
    if d1 = [] ∧ d2 = [] then none
    else withExp ((digitsVal d1 : ℚ) + (digitsVal d2 : ℚ) / (10 : ℚ) ^ d2.length)
      (r2.drop d2.length)
  | _ => if d1 = [] then none else withExp (digitsVal d1 : ℚ) r1

/-- Python `float(x)` on a JSON value. -/
def pyFloat : JVal → Except PyErr ℚ
  | .num q => .ok q
  | .bool b => .ok (if b then 1 else 0)
  | .str s =>
    match pyFloatOfString s with
    | some q => .ok q
    | none => .error .valueError
  | .null => .error .typeError
  | .arr _ => .error .typeError
  | .obj _ => .error .typeError

/-- A network request performed by the gateway. -/
inductive Request where
  | probe
  | chat (system user : String)

/-- The external classification service as a deterministic oracle. -/
structure Net where
  avail : Bool
  ask : String → String → Option JVal

def AI_SYS_COARSE : String :=
  "あなたは看護診断の意味一致チェッカーです。以下の『アセスメント本文（要旨）』と『看護診断（診断名/定義）』が臨床的に一致する可能性を 0.0〜1.0 で評価し、厳密JSON \x7b\"score\": 0.0\x7d のみを返してください。言い換え・含意の一致も評価してください。"

def AI_SYS_FINE : String :=
  "あなたは看護診断の意味一致チェッカーです。『アセスメント本文（要旨）』に、提示する診断名/定義/診断指標/関連因子/危険因子が意味的に表れているかを評価し、厳密JSON \x7b\"matched\":\x7b\"診断指標\":[],\"関連因子\":[],\"危険因子\":[]\x7d, \"score\":0.0\x7d だけ返してください。 matched は文字一致でなくても意味等価ならOK。score は 0.0〜1.0。"

/-- The user prompt of `ai_coarse`. -/
def coarseUser (E : Ext) (assess label defn : String) : String :=
  "【看護診断】" ++ label ++ "\n【定義】" ++ defn ++
  "\n\n【アセスメント本文（要旨）】\n" ++ trimAssess E assess

/-- The user prompt of `ai_fine`. -/
def fineUser (E : Ext) (assess label defn : String)
    (dc rf rk : List String) : String :=
  let lst := fun (xs : List String) =>
    if xs ≠ [] then joinSep ", " xs else "（なし）"
  "【看護診断】" ++ label ++ "\n【定義】" ++ defn ++ "\n\n" ++
  "【診断指標リスト】" ++ lst dc ++ "\n" ++
  "【関連因子リスト】" ++ lst rf ++ "\n" ++
  "【危険因子リスト】" ++ lst rk ++ "\n\n" ++
  "【アセスメント本文（要旨）】\n" ++ trimAssess E assess

/-- `coarse_key`: the sha1 preimage string (the hash is modelled as the
collision-free identity on preimages). -/
def coarseKey (E : Ext) (assess label defn : String) : String :=
  joinSep "\n" [OLLAMA_MODEL, norm E assess, norm E label, norm E defn]

/-- `fine_key`. -/
def fineKey (E : Ext) (assess label defn : String)
    (dc rf rk : List String) : String :=
  joinSep "\n" [OLLAMA_MODEL, norm E assess, norm E label, norm E defn,
    joinSep "|" dc, joinSep "|" rf, joinSep "|" rk]

/-- The coarse response cache (`_CACHE["coarse"]`). -/
def CoarseCache := List (String × ℚ)

/-- A fine-cache entry: raw (unclamped) score plus evidence lists. -/
structure FineEntry where
  score : ℚ
  dc : List String
  rf : List String
  rk : List String
deriving DecidableEq

/-- The fine response cache (`_CACHE["fine"]`). -/
def FineCache := List (String × FineEntry)

/-- Fine/AI matched-evidence bundle (keys 診断指標/関連因子/危険因子). -/
structure Ev where
  dc : List String
  rf : List String
  rk : List String
deriving DecidableEq

def Ev.empty : Ev := ⟨[], [], []⟩

/-- `data = ask_ollama_json(...) or {}`: a missing or falsy JSON value
degrades to the empty object. -/
def respData (resp : Option JVal) : JVal :=
  match resp with
  | none => .obj []
  | some v => if v.truthy then v else .obj []

/-- `float(data.get("score", 0.0) or 0.0)` on the degraded response value:
the score extraction shared by both classifier operations.  A truthy
non-object raises `AttributeError` at `.get`; a truthy non-convertible
score raises inside `float`. -/
def scoreOf (data : JVal) : Except PyErr ℚ :=
  match data with
  | .obj kvs =>
    let v0 := jGet kvs "score" (.num 0)
    pyFloat (if v0.truthy then v0 else JVal.num 0)
  | _ => .error .attributeError

/-- The fresh-call body of `ai_coarse` (after cache miss and a successful
availability probe): the raw, unclamped score or the exception. -/
def coarseFresh (E : Ext) (net : Net) (assess label defn : String) :
    Except PyErr ℚ :=
  scoreOf (respData (net.ask AI_SYS_COARSE (coarseUser E assess label defn)))

/-- `ai_coarse`: cache lookup, availability probe, classify call, cache
store.  Returns (result, updated coarse cache, request trace).  Mirrors the
source exactly: the score is *not* clamped, and the cache is written with
whatever `float(...)` produced — also after a failed (`None`) call, since
`data` then degrades to `{}` and the score to `0.0` before the store. -/
def aiCoarse (E : Ext) (net : Net) (cache : CoarseCache)
    (assess label defn : String) :
    Except PyErr ℚ × CoarseCache × List Request :=
  let key := coarseKey E assess label defn
  match cache.find? (fun kv => kv.1 == key) with
  | some kv => (.ok kv.2, cache, [])
  | none =>
    if !net.avail then (.ok 0, cache, [.probe])
    else
      let user := coarseUser E assess label defn
      let reqs : List Request := [.probe, .chat AI_SYS_COARSE user]
      match coarseFresh E net assess label defn with
      | .ok s => (.ok s, (key, s) :: cache, reqs)
      | .error e => (.error e, cache, reqs)

/-- `str(x).strip()` is non-blank (the filter of the evidence
comprehensions); `str()` of any non-string JSON value never strips to
empty. -/
def pyStrNonblank : JVal → Bool
  | .str s => pyStrip s ≠ ""
  | _ => true

/-- Python iteration over a JSON value (`for x in xs`): lists yield
elements, strings their characters, dicts their keys; other values raise. -/
def pyIterElems : JVal → Except PyErr (List JVal)
  | .arr l => .ok l
  | .str s => .ok (s.data.map (fun c => JVal.str ⟨[c]⟩))
  | .obj kvs => .ok (kvs.map (fun kv => JVal.str kv.1))
  | .null => .error .typeError
  | .bool _ => .error .typeError
  | .num _ => .error .typeError

/-- `nfkc(x).strip()` for one evidence element: `x or ""` shields falsy
values, truthy non-strings raise `TypeError` inside
`unicodedata.normalize`. -/
def evElem (E : Ext) (x : JVal) : Except PyErr String :=
  if x.truthy then
    match x with
    | .str s => .ok (pyStrip (E.nfkc s))
    | _ => .error .typeError
  else .ok (pyStrip (E.nfkc ""))

/-- One evidence list `[nfkc(x).strip() for x in matched.get(k,[]) if
str(x).strip()]`. -/
def evList (E : Ext) (matched : List (String × JVal)) (k : String) :
    Except PyErr (List String) := do
  let xs ← pyIterElems (jGet matched k (.arr []))
  xs.foldlM (fun acc x =>
    if pyStrNonblank x then do
      let s ← evElem E x
      pure (acc ++ [s])
    else pure acc) []

/-- The evidence extraction of `ai_fine`
(`matched = data.get("matched", {}) or {}` plus the three comprehensions). -/
def matchedOf (E : Ext) (data : JVal) : Except PyErr Ev :=
  match data with
  | .obj kvs =>
    let m0 := jGet kvs "matched" (.obj [])
    match (if m0.truthy then m0 else JVal.obj []) with
    | .obj mkvs => do
      let edc ← evList E mkvs "診断指標"
      let erf ← evList E mkvs "関連因子"
      let erk ← evList E mkvs "危険因子"
      pure ⟨edc, erf, erk⟩
    | _ => .error .attributeError
  | _ => .error .attributeError

/-- The fresh-call body of `ai_fine`: raw (unclamped) score plus extracted
evidence, or the first exception raised on the way (score extraction
before evidence extraction, as in the source). -/
def fineFresh (E : Ext) (net : Net) (assess label defn : String)
    (dc rf rk : List String) : Except PyErr (ℚ × Ev) := do
  let data := respData (net.ask AI_SYS_FINE (fineUser E assess label defn dc rf rk))
  let score ← scoreOf data
  let ev ← matchedOf E data
  pure (score, ev)

/-- `ai_fine`: cache lookup (returning the *stored raw* score), availability
probe, classify call, evidence extraction, cache store of the raw score, and
a clamped return value.  As in the source, a failed (`None`) call still
stores a zero entry, and malformed shapes raise before the store. -/
def aiFine (E : Ext) (net : Net) (cache : FineCache)
    (assess label defn : String) (dc rf rk : List String) :
    Except PyErr (ℚ × Ev) × FineCache × List Request :=
  let key := fineKey E assess label defn dc rf rk
  match cache.find? (fun kv => kv.1 == key) with
  | some kv => (.ok (kv.2.score, ⟨kv.2.dc, kv.2.rf, kv.2.rk⟩), cache, [])
  | none =>
    if !net.avail then (.ok (0, Ev.empty), cache, [.probe])
    else
      let user := fineUser E assess label defn dc rf rk
      let reqs : List Request := [.probe, .chat AI_SYS_FINE user]
      match fineFresh E net assess label defn dc rf rk with
      | .ok p =>
        (.ok (max 0 (min 1 p.1), p.2),
         (key, ⟨p.1, p.2.dc, p.2.rf, p.2.rk⟩) :: cache, reqs)
      | .error e => (.error e, cache, reqs)

/-! ## Candidates and the ranking pipeline (`build_cand`, `collect`) -/

/-- One scored candidate (the dict built by `build_cand`, plus the
`ai_rank` field assigned after sorting; `0` = not yet ranked). -/
structure Cand where
  code : String
  label : String
  definition : String
  loose : Loose
  def_sim : ℚ
  rule_raw : ℚ
  reasons : List String
  ai_coarse : ℚ
  ai_sim : ℚ
  ai_ev : Ev
  primary_focus : String
  secondary_focus : String
  care_target : String
  anatomical_site : String
  age_min : String
  age_max : String
  clinical_course : String
  diagnosis_state : String
  situational_constraints : String
  domain : String
  cls : String
  judge : String
  priority_hint : String
  related : Bool
  soft_score : ℚ
  score : ℚ
  ai_rank : Nat
deriving DecidableEq

/-- The category bonus condition of `build_cand`
(`ok_cat and why_cat and "一致" in why_cat`). -/
def catBonus (E : Ext) (assess : String) (r : Row) : ℚ :=
  let cat := rowCategoryOk E r (extractCategoriesFromText E assess)
  if cat.1 && cat.2 ≠ "" && strContains cat.2 "一致" then W_CAT_MATCH else 0

/-- The weak-evidence penalty of `build_cand` (risk diagnoses without risk
hits, problem-focused diagnoses without defining-characteristic hits; the
second test overwrites the first). -/
def weakPenalty (r : Row) (loose : Loose) (ev : Ev) : ℚ × String :=
  let dcHits := loose.dc.length + ev.dc.length
  let rkHits := loose.rk.length + ev.rk.length
  let afterRisk : ℚ × String :=
    if strContains r.diagnosis_state "リスク" ∧ rkHits < 1 then
      (P_MIN_HITS_WEAK, "危険因子ヒット弱(" ++ toString rkHits ++ "/1)")
    else (0, "")
  if strContains r.diagnosis_state "問題焦点" ∧ dcHits < 1 then
    (P_MIN_HITS_WEAK, "診断指標ヒット弱(" ++ toString dcHits ++ "/1)")
  else afterRisk

/-- `build_cand`: score assembly, relatedness heuristic, reason list, and
the candidate record.  `aiEv = none` models the Python `ai_ev=None`
default (`ai_ev or {...}` then yields the empty evidence). -/
def buildCand (E : Ext) (assess : String) (r : Row)
    (ds sCoarse sFine : ℚ) (aiEv : Option Ev) : Cand :=
  let smb := scoreMatchBlocks E assess r
  let rule_raw := smb.1
  let loose := smb.2.1
  let reasons0 := smb.2.2
  let demo := parseDemo E assess
  let settings := parseSetting E assess
  let textCats := extractCategoriesFromText E assess
  let ct := rowCareTargetOk r demo
  let ag := rowAgeOk r demo
  let sx := rowSexOk r demo
  let cat := rowCategoryOk E r textCats
  let hardOk := ct.1 && ag.1 && sx.1 && cat.1
  let p1 := penaltySetting E r settings
  let p3 := penaltyContradict E assess r
  let ev := aiEv.getD Ev.empty
  let p2 := weakPenalty r loose ev
  let penalty := p1.1 + p2.1 + p3.1
  let bonus := catBonus E assess r
  let total := W_FINE_AI * sFine + W_COARSE_AI * sCoarse + W_DEF_SIM * ds
    + rule_raw + bonus - penalty
  let relatedBasic := decide (FINE_MIN_PASS ≤ sFine) ||
    (decide (COARSE_MIN_PASS ≤ sCoarse) &&
      (decide ((3/25 : ℚ) ≤ ds) || decide ((3/2 : ℚ) ≤ rule_raw)))
  let related := hardOk && (relatedBasic || decide ((2 : ℚ) ≤ total))
  let reasons := reasons0 ++
    ([(ct.1, ct.2), (ag.1, ag.2), (sx.1, sx.2), (cat.1, cat.2)].filterMap
      (fun p => if p.2 ≠ "" then
        some ((if p.1 then "OK: " else "NG: ") ++ p.2) else none)) ++
    ([p1.2, p2.2, p3.2].filterMap (fun w =>
      if w ≠ "" then some ("penalty: " ++ w ++ " (-" ++ fmt1 penalty ++ ")")
      else none))
  { code := if pyStrip r.code ≠ "" then pyStrip r.code else "00000"
    label := if pyStrip r.label ≠ "" then pyStrip r.label else "(診断名未設定)"
    definition := r.definition
    loose := loose
    def_sim := ds
    rule_raw := rule_raw
    reasons := reasons
    ai_coarse := sCoarse
    ai_sim := sFine
    ai_ev := ev
    primary_focus := r.primary_focus
    secondary_focus := r.secondary_focus
    care_target := r.care_target
    anatomical_site := r.anatomical_site
    age_min := r.age_min
    age_max := r.age_max
    clinical_course := r.clinical_course
    diagnosis_state := r.diagnosis_state
    situational_constraints := r.situational_constraints
    domain := r.domain
    cls := r.cls
    judge := r.judge
    priority_hint := r.priority_hint
    related := related
    soft_score := roundTo 3 total
    score := roundTo 3 total
    ai_rank := 0 }

/-- The inputs of one `collect` run: library parameters, network oracle,
the two persisted caches, the visibility flag (`DIAG_ONLY_RELATED`), the
assessment text and the catalogue. -/
structure RunIn where
  E : Ext
  net : Net
  ccache : CoarseCache
  fcache : FineCache
  onlyRelated : Bool
  assess : String
  rows : List Row

def rowAt (R : RunIn) (i : Nat) : Row := R.rows.getD i {}

/-- Pre-scores: definition similarity per row (`pre[i][1]`). -/
def preDsList (R : RunIn) : List ℚ :=
  let sp := buildDefinitionSpace R.E R.rows
  let avec := tfidfVec (tokenize R.E (norm R.E R.assess)) sp.1
  sp.2.map (fun dv => cosDictQ R.E avec dv)

def preDs (R : RunIn) (i : Nat) : ℚ := (preDsList R).getD i 0

/-- Pre-scores: raw rule score per row (`pre[i][2]`). -/
def preRule (R : RunIn) (i : Nat) : ℚ :=
  (scoreMatchBlocks R.E R.assess (rowAt R i)).1

/-- `hard_ok[i]`: all four hard filters pass. -/
def hardOkAt (R : RunIn) (i : Nat) : Bool :=
  let r := rowAt R i
  let demo := parseDemo R.E R.assess
  (rowCareTargetOk r demo).1 && (rowAgeOk r demo).1 && (rowSexOk r demo).1 &&
    (rowCategoryOk R.E r (extractCategoriesFromText R.E R.assess)).1

/-- `cat_reason[i]`. -/
def catReasonAt (R : RunIn) (i : Nat) : String :=
  let c := rowCategoryOk R.E (rowAt R i) (extractCategoriesFromText R.E R.assess)
  if c.1 && c.2 ≠ "" then "OK: " ++ c.2
  else if c.2 ≠ "" then "NG: " ++ c.2
  else ""

/-- The rows passing all hard filters. -/
def eligibleBase (R : RunIn) : List Nat :=
  (List.range R.rows.length).filter (fun i => hardOkAt R i)

/-- The eligible pool after hard filtering, falling back to every row when
empty. -/
def eligibleList (R : RunIn) : List Nat :=
  if eligibleBase R = [] then List.range R.rows.length else eligibleBase R

/-- The eligible rows surviving the loose cutoff (definition similarity AND
rule score both below their keep thresholds are dropped). -/
def keptBase (R : RunIn) : List Nat :=
  (List.range R.rows.length).filter (fun i =>
    (eligibleList R).contains i &&
      !(decide (preDs R i < MIN_DEF_SIM_KEEP) &&
        decide (preRule R i < MIN_RULE_SCORE_KEEP)))

/-- The pool after the loose cutoff, falling back to the eligible pool. -/
def keptList (R : RunIn) : List Nat :=
  if keptBase R = [] then eligibleList R else keptBase R

/-- `quick_score`. -/
def quickScore (R : RunIn) (i : Nat) : ℚ :=
  let bonus : ℚ :=
    if ("OK: カテゴリ一致".data).isPrefixOf (catReasonAt R i).data then W_CAT_MATCH
    else 0
  3/5 * preDs R i + 2/5 * min 1 (preRule R i / 4) + 1/10 * bonus

/-- Insertion step of the stable descending sort: `x` goes in front of the
first strictly-smaller element, after everything it does not beat. -/
def insDesc {α : Type} (gt : α → α → Bool) (x : α) : List α → List α
  | [] => [x]
  | y :: ys => if gt x y then x :: y :: ys else y :: insDesc gt x ys

/-- Stable descending insertion sort (Python `sorted(..., reverse=True)` /
`list.sort(reverse=True)`: equal keys keep their original order). -/
def pySortDesc {α : Type} (gt : α → α → Bool) (l : List α) : List α :=
  l.foldl (fun acc x => insDesc gt x acc) []

/-- The kept pool ordered by `quick_score`, best first. -/
def orderList (R : RunIn) : List Nat :=
  pySortDesc (fun i j => decide (quickScore R j < quickScore R i)) (keptList R)

/-- The top-K coarse-classification targets (a Python set iterated in the
deterministic order fixed here). -/
def aiTargets (R : RunIn) : List Nat :=
  if 0 < AI_TOPK then (orderList R).take AI_TOPK else []

/-- `ai_coarse_s[i]`: the coarse result slot.  Slots start at `0.0`; a slot
is written only when the stage runs (targets non-empty and service
available), each worker owning its own index; a worker whose call raised
leaves its slot at `0.0` (`except Exception: pass`). -/
def coarseScoreAt (R : RunIn) (i : Nat) : ℚ :=
  if (aiTargets R).contains i && R.net.avail then
    match (aiCoarse R.E R.net R.ccache R.assess (rowAt R i).label
        (rowAt R i).definition).1 with
    | .ok s => s
    | .error _ => 0
  else 0

/-- `co_list`: coarse targets sorted by coarse score, descending. -/
def coListSorted (R : RunIn) : List (Nat × ℚ) :=
  pySortDesc (fun a b => decide (b.2 < a.2))
    ((aiTargets R).map (fun i => (i, coarseScoreAt R i)))

/-- `cut`: 60 % of the coarse list, at least one, 0 when empty. -/
def cutN (R : RunIn) : Nat :=
  if coListSorted R = [] then 0
  else max 1 (Int.toNat (Int.ceil ((3/5 : ℚ) * ((coListSorted R).length : ℚ))))

/-- The fine-stage pool. -/
def finePool (R : RunIn) : List Nat :=
  (((coListSorted R).take (cutN R)).filter (fun p =>
    decide (COARSE_MIN_PASS ≤ coarseScoreAt R p.1) && R.net.avail)).map (·.1)

/-- `early_accept`: coarse score at least 0.82. -/
def earlyAcceptList (R : RunIn) : List Nat :=
  ((coListSorted R).filter (fun p => decide ((82/100 : ℚ) ≤ p.2))).map (·.1)

/-- The fine-stage result slot for row `i`: `some` on a successful
`ai_fine` call, `none` when the row is not in the pool or its worker
raised. -/
def fineResultAt (R : RunIn) (i : Nat) : Option (ℚ × Ev) :=
  if (finePool R).contains i then
    let r := rowAt R i
    match (aiFine R.E R.net R.fcache R.assess r.label r.definition
        (splitTerms R.E r.defining_characteristics)
        (splitTerms R.E r.related_factors)
        (splitTerms R.E r.risk_factors)).1 with
    | .ok p => some p
    | .error _ => none
  else none

/-- `out[i]` after the three fill passes: fine success, then early-accept
(fine slot := coarse score, empty evidence), then the coarse-only
default. -/
def slotAt (R : RunIn) (i : Nat) : Cand :=
  match fineResultAt R i with
  | some p =>
    buildCand R.E R.assess (rowAt R i) (preDs R i) (coarseScoreAt R i) p.1 (some p.2)
  | none =>
    if (earlyAcceptList R).contains i then
      buildCand R.E R.assess (rowAt R i) (preDs R i) (coarseScoreAt R i)
        (coarseScoreAt R i) (some Ev.empty)
    else
      buildCand R.E R.assess (rowAt R i) (preDs R i) (coarseScoreAt R i) 0 none

def slots (R : RunIn) : List Cand := (List.range R.rows.length).map (slotAt R)

/-- Lexicographic strict-greater on rational key lists. -/
def qListGt : List ℚ → List ℚ → Bool
  | x :: xs, y :: ys => if x = y then qListGt xs ys else decide (y < x)
  | _, _ => false

/-- The sort key comparison of `collect` (tuple of relatedness and rounded
scores, descending). -/
def candKeyGt (a b : Cand) : Bool :=
  if a.related = b.related then
    qListGt
      [roundTo 3 a.score, roundTo 3 a.ai_sim, roundTo 3 a.ai_coarse,
        roundTo 4 a.def_sim, roundTo 3 a.rule_raw]
      [roundTo 3 b.score, roundTo 3 b.ai_sim, roundTo 3 b.ai_coarse,
        roundTo 4 b.def_sim, roundTo 3 b.rule_raw]
  else a.related

def sortedCands (R : RunIn) : List Cand := pySortDesc candKeyGt (slots R)

/-- Rank assignment (`enumerate(cands, start=1)`). -/
def rankGo (k : Nat) : List Cand → List Cand
  | [] => []
  | c :: cs => { c with ai_rank := k } :: rankGo (k + 1) cs

def rankedCands (R : RunIn) : List Cand := rankGo 1 (sortedCands R)

/-- The related, positive-score candidates. -/
def visList (R : RunIn) : List Cand :=
  (rankedCands R).filter (fun c => c.related && decide ((0 : ℚ) < c.score))

/-- `collect`: the final visibility filter — related positive-score
candidates, falling back to a top fraction (at least three) when that set
is empty; everything when `DIAG_ONLY_RELATED` is off. -/
def collect (R : RunIn) : List Cand :=
  if R.onlyRelated then
    if visList R = [] then
      (rankedCands R).take
        (max 3 (Int.toNat (Int.floor (((rankedCands R).length : ℚ) * OUT_TOP_FRAC))))
    else visList R
  else rankedCands R

/-- The `candidates` field of the machine-readable output
`diagnosis_candidates.json`: `main` serializes exactly the list returned by
`collect` (the run metadata object is not modelled — no claim touches it). -/
def jsonCandidates (R : RunIn) : List Cand := collect R

/-! ## Concrete run inputs for witnesses and counterexamples

All strings below are NFKC-stable and lower-case, so `extId` agrees with the
real `unicodedata.normalize`/`str.lower` on every evaluated call; every rule
term is found by direct substring containment (or not at all, with no token
within fuzzy reach), so `Ext.sim` is never consulted; the assessment shares
no TF-IDF token with any definition, so every cosine returns 0 through the
empty-vector branch and `Ext.logQ`/`Ext.sqrtQ` are never consulted. -/

/-- Assessment text: "walking trouble and paralysis are seen" (hiragana). -/
def assess1 : String := "ほこうとまひがみられる"

/-- Row whose two defining characteristics both occur affirmed in
`assess1`. -/
def rowA : Row := { code := "00001"
                    label := "まひしょうがい"
                    definition := "xq yq"
                    defining_characteristics := "ほこう|まひ"
                    diagnosis_state := "問題焦点" }

/-- Row with no matching terms: scored but not related. -/
def rowB : Row := { code := "00002"
                    label := "ねむり" }

/-- The classifier forced offline. -/
def netOffline : Net := ⟨false, fun _ _ => none⟩

/-- Offline run over a two-row catalogue (only `rowA` is visible). -/
def R1 : RunIn := ⟨extId, netOffline, [], [], true, assess1, [rowA, rowB]⟩

/-- `R1` with the related-only visibility filter disabled. -/
def R1all : RunIn := ⟨extId, netOffline, [], [], false, assess1, [rowA, rowB]⟩

/-- Oracle for the early-accept run: the coarse stage answers 0.9, the fine
stage returns a truthy non-object JSON value (`5`), which makes `ai_fine`
raise `AttributeError` at `data.get` — its worker dies and the early-accept
pass fills the slot. -/
def net2 : Net :=
  ⟨true, fun sys _ =>
    if sys = AI_SYS_COARSE then some (JVal.obj [("score", JVal.num (9/10))])
    else some (JVal.num 5)⟩

/-- Online run with a high coarse score and a failing fine stage. -/
def R2 : RunIn := ⟨extId, net2, [], [], true, assess1, [rowA]⟩

/-- Service reachable but every classify call fails to yield JSON. -/
def netAskFail : Net := ⟨true, fun _ _ => none⟩

/-- Service reachable, returns a JSON object whose score is a non-numeric
string. -/
def netBadType : Net :=
  ⟨true, fun _ _ => some (JVal.obj [("score", JVal.str "high")])⟩

/-- Service reachable, returns a score outside [0,1]. -/
def netBig : Net :=
  ⟨true, fun _ _ => some (JVal.obj [("score", JVal.num 5)])⟩

/-- Diagnosis row for the negation scenario: defining characteristic 発熱
(fever). -/
def rowFever : Row := { code := "00003"
                        label := "かんせん"
                        defining_characteristics := "発熱" }

/-- A default candidate value (used only as the `getD` fallback when a
witness picks a member of a concrete run's output). -/
def defaultCand : Cand := buildCand extId "" {} 0 0 0 none

/-- U+0130 (LATIN CAPITAL LETTER I WITH DOT ABOVE) followed by U+0327
(COMBINING CEDILLA). -/
def capIDot : String := ⟨[Char.ofNat 0x130, Char.ofNat 0x327]⟩

/-- `i` followed by U+0307 (COMBINING DOT ABOVE) then U+0327 (COMBINING
CEDILLA) — combining marks out of canonical order (ccc 230 before 202). -/
def iDotCed : String := ⟨[Char.ofNat 0x69, Char.ofNat 0x307, Char.ofNat 0x327]⟩

/-- `i` followed by U+0327 then U+0307 — the same marks in canonical
order. -/
def iCedDot : String := ⟨[Char.ofNat 0x69, Char.ofNat 0x327, Char.ofNat 0x307]⟩

/-- `Ext` instance recording the real CPython values (verified by running
`unicodedata.normalize`/`str.lower`) on the strings reached by the
normalization-reordering trace: NFKC leaves U+0130 U+0327 unchanged (the
dot above recomposes into U+0130 across the lower-ccc cedilla), `lower`
maps U+0130 to `i` + U+0307 yielding marks out of canonical order, and
NFKC canonically reorders `i` U+0307 U+0327 to `i` U+0327 U+0307
(ccc 202 < 230, no composite); strings not reached are left fixed. -/
def extReorder : Ext where
  nfkc := fun s =>
    if s = capIDot then capIDot
    else if s = iDotCed then iCedDot
    else s
  lower := fun s => if s = capIDot then iDotCed else s
  sim := fun _ _ => 0
  logQ := fun _ => 0
  sqrtQ := fun _ => 0

/-! # Supporting lemmas -/

theorem roundHalfEvenZ_close (q : ℚ) : |(roundHalfEvenZ q : ℚ) - q| ≤ 1/2 := by
  have hf : ((⌊q⌋ : ℤ) : ℚ) ≤ q := Int.floor_le q
  have hf2 : q < (⌊q⌋ : ℚ) + 1 := Int.lt_floor_add_one q
  unfold roundHalfEvenZ
  split_ifs with h1 h2 h3
  · rw [abs_le]
    constructor <;> linarith
  · rw [abs_le]
    push_cast
    constructor <;> linarith
  · have h1' := not_lt.mp h1
    have h2' := not_lt.mp h2
    rw [abs_le]
    constructor <;> linarith
  · have h1' := not_lt.mp h1
    have h2' := not_lt.mp h2
    rw [abs_le]
    push_cast
    constructor <;> linarith

theorem roundTo3_close (q : ℚ) : |roundTo 3 q - q| ≤ 1/2000 := by
  have h := roundHalfEvenZ_close (q * (10 : ℚ) ^ 3)
  unfold roundTo
  have e : (roundHalfEvenZ (q * (10 : ℚ) ^ 3) : ℚ) / (10 : ℚ) ^ 3 - q =
      ((roundHalfEvenZ (q * (10 : ℚ) ^ 3) : ℚ) - q * (10 : ℚ) ^ 3) / (10 : ℚ) ^ 3 := by
    ring
  rw [e, abs_div]
  have h1000 : |(10 : ℚ) ^ 3| = 1000 := by norm_num
  rw [h1000]
  rw [div_le_iff₀ (by norm_num : (0 : ℚ) < 1000)]
  calc |(roundHalfEvenZ (q * (10 : ℚ) ^ 3) : ℚ) - q * (10 : ℚ) ^ 3| ≤ 1/2 := h
    _ ≤ 1/2000 * 1000 := by norm_num

theorem insDesc_length {α : Type} (gt : α → α → Bool) (x : α) (l : List α) :
    (insDesc gt x l).length = l.length + 1 := by
  induction l with
  | nil => rfl
  | cons y ys ih =>
    unfold insDesc
    split
    · simp
    · simp [ih]

theorem mem_insDesc {α : Type} (gt : α → α → Bool) (x a : α) (l : List α) :
    a ∈ insDesc gt x l ↔ a = x ∨ a ∈ l := by
  induction l with
  | nil => simp [insDesc]
  | cons y ys ih =>
    unfold insDesc
    split
    · simp only [List.mem_cons]
      try tauto
    · simp only [List.mem_cons, ih]
      try tauto

theorem pySortDesc_foldl_length {α : Type} (gt : α → α → Bool) :
    ∀ (l acc : List α),
      (l.foldl (fun acc x => insDesc gt x acc) acc).length = acc.length + l.length := by
  intro l
  induction l with
  | nil => simp
  | cons x xs ih =>
    intro acc
    simp only [List.foldl_cons]
    rw [ih, insDesc_length]
    simp [List.length_cons]
    omega

theorem pySortDesc_length {α : Type} (gt : α → α → Bool) (l : List α) :
    (pySortDesc gt l).length = l.length := by
  unfold pySortDesc
  rw [pySortDesc_foldl_length]
  simp

theorem pySortDesc_foldl_mem {α : Type} (gt : α → α → Bool) (a : α) :
    ∀ (l acc : List α),
      (a ∈ l.foldl (fun acc x => insDesc gt x acc) acc ↔ a ∈ acc ∨ a ∈ l) := by
  intro l
  induction l with
  | nil => simp
  | cons x xs ih =>
    intro acc
    simp only [List.foldl_cons]
    rw [ih, mem_insDesc]
    simp [or_comm, or_assoc, or_left_comm]

theorem mem_pySortDesc {α : Type} (gt : α → α → Bool) (a : α) (l : List α) :
    a ∈ pySortDesc gt l ↔ a ∈ l := by
  unfold pySortDesc
  rw [pySortDesc_foldl_mem]
  simp

theorem rankGo_length (k : Nat) (l : List Cand) : (rankGo k l).length = l.length := by
  induction l generalizing k with
  | nil => rfl
  | cons c cs ih => simp [rankGo, ih]

theorem mem_rankGo (c : Cand) :
    ∀ (k : Nat) (l : List Cand), c ∈ rankGo k l →
      ∃ b ∈ l, ∃ j, c = { b with ai_rank := j } := by
  intro k l
  induction l generalizing k with
  | nil => simp [rankGo]
  | cons b bs ih =>
    intro h
    simp only [rankGo, List.mem_cons] at h
    rcases h with h | h
    · exact ⟨b, by simp, k, h⟩
    · obtain ⟨b', hb', j, hj⟩ := ih (k + 1) h
      exact ⟨b', by simp [hb'], j, hj⟩

theorem slots_length (R : RunIn) : (slots R).length = R.rows.length := by
  simp [slots]

theorem mem_slots (R : RunIn) (c : Cand) :
    c ∈ slots R → ∃ i, i < R.rows.length ∧ c = slotAt R i := by
  intro h
  simp only [slots, List.mem_map, List.mem_range] at h
  obtain ⟨i, hi, hc⟩ := h
  exact ⟨i, hi, hc.symm⟩

theorem getD_zero_mem {α : Type} (l : List α) (d : α) (h : 0 < l.length) :
    l.getD 0 d ∈ l := by
  cases l with
  | nil => simp at h
  | cons x xs => simp [List.getD]

theorem rowAt_mem (R : RunIn) (i : Nat) (h : i < R.rows.length) :
    rowAt R i ∈ R.rows := by
  unfold rowAt
  rw [List.getD_eq_getElem?_getD, List.getElem?_eq_getElem h]
  exact List.getElem_mem h

theorem buildCand_fields (E : Ext) (assess : String) (r : Row)
    (ds sc sf : ℚ) (aiEv : Option Ev) :
    (buildCand E assess r ds sc sf aiEv).ai_sim = sf ∧
    (buildCand E assess r ds sc sf aiEv).ai_coarse = sc ∧
    (buildCand E assess r ds sc sf aiEv).def_sim = ds ∧
    (buildCand E assess r ds sc sf aiEv).rule_raw = (scoreMatchBlocks E assess r).1 ∧
    (buildCand E assess r ds sc sf aiEv).loose = (scoreMatchBlocks E assess r).2.1 ∧
    (buildCand E assess r ds sc sf aiEv).ai_ev = aiEv.getD Ev.empty ∧
    (buildCand E assess r ds sc sf aiEv).definition = r.definition ∧
    (buildCand E assess r ds sc sf aiEv).diagnosis_state = r.diagnosis_state :=
  ⟨rfl, rfl, rfl, rfl, rfl, rfl, rfl, rfl⟩

/-- The total score subtracted-penalty decomposition of `build_cand`, before
rounding: the stored `score` is the 3-decimal rounding of the weighted sum
minus the candidate's own three penalties. -/
theorem buildCand_score (E : Ext) (assess : String) (r : Row)
    (ds sc sf : ℚ) (aiEv : Option Ev) :
    (buildCand E assess r ds sc sf aiEv).score =
      roundTo 3 (W_FINE_AI * sf + W_COARSE_AI * sc + W_DEF_SIM * ds +
        (scoreMatchBlocks E assess r).1 + catBonus E assess r -
        ((penaltySetting E r (parseSetting E assess)).1 +
         (weakPenalty r (scoreMatchBlocks E assess r).2.1 (aiEv.getD Ev.empty)).1 +
         (penaltyContradict E assess r).1)) := rfl

/-- Every candidate in `collect`'s output is (up to the rank field) a
`buildCand` of some row with some stage scores. -/
theorem collect_mem_structure (R : RunIn) (c : Cand) (hc : c ∈ collect R) :
    ∃ i, i < R.rows.length ∧ ∃ sc sf ev j,
      c = { buildCand R.E R.assess (rowAt R i) (preDs R i) sc sf ev with ai_rank := j } := by
  have hranked : c ∈ rankedCands R := by
    unfold collect at hc
    by_cases hrel : R.onlyRelated
    · simp only [hrel, if_true] at hc
      by_cases hvis : visList R = []
      · rw [if_pos hvis] at hc
        exact List.mem_of_mem_take hc
      · rw [if_neg hvis] at hc
        exact List.mem_of_mem_filter hc
    · simp only [hrel, if_false] at hc
      exact hc
  obtain ⟨b, hb, j, hj⟩ := mem_rankGo c 1 (sortedCands R) hranked
  have hb' : b ∈ slots R := (mem_pySortDesc candKeyGt b (slots R)).mp hb
  obtain ⟨i, hi, hbi⟩ := mem_slots R b hb'
  refine ⟨i, hi, ?_⟩
  subst hbi
  unfold slotAt at hj
  cases hfr : fineResultAt R i with
  | some p =>
    rw [hfr] at hj
    exact ⟨coarseScoreAt R i, p.1, some p.2, j, hj⟩
  | none =>
    rw [hfr] at hj
    by_cases hea : (earlyAcceptList R).contains i
    · rw [if_pos hea] at hj
      exact ⟨coarseScoreAt R i, coarseScoreAt R i, some Ev.empty, j, hj⟩
    · rw [if_neg hea] at hj
      exact ⟨coarseScoreAt R i, 0, none, j, hj⟩

theorem rankedCands_length (R : RunIn) :
    (rankedCands R).length = R.rows.length := by
  unfold rankedCands sortedCands
  rw [rankGo_length, pySortDesc_length, slots_length]

/-! # Claim theorems -/

/-- C1 (counterexample): with the default configuration
(`DIAG_ONLY_RELATED=1`), the machine-readable JSON candidate list of a run
over a two-row catalogue contains a single entry — not one entry per scored
catalogue definition, contradicting the claim that it lists *all* scored
candidates. -/
theorem C1_counterexample :
    (jsonCandidates R1).length = 1 ∧ R1.rows.length = 2 := by
  constructor
  · with_unfolding_all decide
  · rfl

/-- C1 (amended): the JSON record serializes exactly the list returned by
`collect` — the same visibility-filtered list the report draws from — and
only with the related-only filter disabled does it contain one entry per
scored catalogue definition. -/
theorem C1_amended :
    (∀ R : RunIn, jsonCandidates R = collect R) ∧
    (∀ R : RunIn, R.onlyRelated = false →
      (jsonCandidates R).length = R.rows.length) := by
  refine ⟨fun R => rfl, fun R h => ?_⟩
  show (collect R).length = R.rows.length
  unfold collect
  rw [h]
  simp only [Bool.false_eq_true, if_false]
  exact rankedCands_length R

/-- C1 (witness): the amended claim at the concrete offline run with the
filter disabled. -/
theorem C1_witness :
    jsonCandidates R1all = collect R1all ∧
    (jsonCandidates R1all).length = R1all.rows.length :=
  ⟨C1_amended.1 R1all, C1_amended.2 R1all rfl⟩

/-- C2: for every candidate returned by `collect`, the reported (3-decimal
rounded) total score equals
`W_FINE_AI*fineScore + W_COARSE_AI*coarseScore + W_DEF_SIM*definitionSimilarity
+ ruleRawScore + categoryBonus` minus the candidate's own three penalties
(setting mismatch, weak evidence, contradiction), to within the 1/2000
quantization of the rounding. -/
theorem C2_score_decomposition (R : RunIn) (c : Cand) (hc : c ∈ collect R) :
    ∃ r ∈ R.rows, c.definition = r.definition ∧
      |c.score - (W_FINE_AI * c.ai_sim + W_COARSE_AI * c.ai_coarse +
        W_DEF_SIM * c.def_sim + c.rule_raw + catBonus R.E R.assess r -
        ((penaltySetting R.E r (parseSetting R.E R.assess)).1 +
         (weakPenalty r c.loose c.ai_ev).1 +
         (penaltyContradict R.E R.assess r).1))| ≤ 1/2000 := by
  obtain ⟨i, hi, sc, sf, ev, j, hcj⟩ := collect_mem_structure R c hc
  have hflds := buildCand_fields R.E R.assess (rowAt R i) (preDs R i) sc sf ev
  have hsim : c.ai_sim = sf := by rw [hcj]; exact hflds.1
  have hco : c.ai_coarse = sc := by rw [hcj]; exact hflds.2.1
  have hds : c.def_sim = preDs R i := by rw [hcj]; exact hflds.2.2.1
  have hrule : c.rule_raw = (scoreMatchBlocks R.E R.assess (rowAt R i)).1 := by
    rw [hcj]; exact hflds.2.2.2.1
  have hloose : c.loose = (scoreMatchBlocks R.E R.assess (rowAt R i)).2.1 := by
    rw [hcj]; exact hflds.2.2.2.2.1
  have hev : c.ai_ev = ev.getD Ev.empty := by rw [hcj]; exact hflds.2.2.2.2.2.1
  have hdefn : c.definition = (rowAt R i).definition := by
    rw [hcj]; exact hflds.2.2.2.2.2.2.1
  have hscore : c.score =
      roundTo 3 (W_FINE_AI * sf + W_COARSE_AI * sc + W_DEF_SIM * preDs R i +
        (scoreMatchBlocks R.E R.assess (rowAt R i)).1 + catBonus R.E R.assess (rowAt R i) -
        ((penaltySetting R.E (rowAt R i) (parseSetting R.E R.assess)).1 +
         (weakPenalty (rowAt R i) (scoreMatchBlocks R.E R.assess (rowAt R i)).2.1
           (ev.getD Ev.empty)).1 +
         (penaltyContradict R.E R.assess (rowAt R i)).1)) := by
    rw [hcj]
    exact buildCand_score R.E R.assess (rowAt R i) (preDs R i) sc sf ev
  refine ⟨rowAt R i, rowAt_mem R i hi, hdefn, ?_⟩
  rw [hscore, hsim, hco, hds, hrule, hloose, hev]
  exact roundTo3_close _

/-- C2 (witness): the decomposition at the single visible candidate of the
concrete offline run. -/
theorem C2_witness :
    ∃ r ∈ R1.rows,
      ((collect R1).getD 0 defaultCand).definition = r.definition ∧
      |((collect R1).getD 0 defaultCand).score -
        (W_FINE_AI * ((collect R1).getD 0 defaultCand).ai_sim +
         W_COARSE_AI * ((collect R1).getD 0 defaultCand).ai_coarse +
         W_DEF_SIM * ((collect R1).getD 0 defaultCand).def_sim +
         ((collect R1).getD 0 defaultCand).rule_raw + catBonus R1.E R1.assess r -
         ((penaltySetting R1.E r (parseSetting R1.E R1.assess)).1 +
          (weakPenalty r ((collect R1).getD 0 defaultCand).loose
            ((collect R1).getD 0 defaultCand).ai_ev).1 +
          (penaltyContradict R1.E R1.assess r).1))| ≤ 1/2000 :=
  C2_score_decomposition R1 ((collect R1).getD 0 defaultCand)
    (getD_zero_mem (collect R1) defaultCand
      (by
        have h : (collect R1).length = 1 := by with_unfolding_all decide
        omega))

/-- C4: for a non-empty catalogue and non-empty assessment text, the
eligible pool, the loose-cutoff pool and the final returned list are all
non-empty, whatever the network oracle does (including fully offline). -/
theorem C4_nonempty_output (R : RunIn) (hrows : R.rows ≠ []) (_ : R.assess ≠ "") :
    eligibleList R ≠ [] ∧ keptList R ≠ [] ∧ collect R ≠ [] := by
  have hlen : 0 < R.rows.length := List.length_pos.mpr hrows
  have hrange : List.range R.rows.length ≠ [] := by
    intro h
    rw [List.range_eq_nil] at h
    omega
  have helig : eligibleList R ≠ [] := by
    unfold eligibleList
    split
    · exact hrange
    · assumption
  have hkept : keptList R ≠ [] := by
    unfold keptList
    split
    · exact helig
    · assumption
  refine ⟨helig, hkept, ?_⟩
  have hclen : (rankedCands R).length = R.rows.length := rankedCands_length R
  have hcands : rankedCands R ≠ [] := by
    intro h
    rw [h] at hclen
    simp only [List.length_nil] at hclen
    omega
  unfold collect
  by_cases hrel : R.onlyRelated
  · simp only [hrel, if_true]
    split
    · intro h
      rw [List.take_eq_nil_iff] at h
      rcases h with h | h
      · have h3 := Nat.le_max_left 3
          (Int.toNat (Int.floor (((rankedCands R).length : ℚ) * OUT_TOP_FRAC)))
        omega
      · exact hcands h
    · assumption
  · simp only [hrel, if_false]
    exact hcands

/-- C4 (witness): the non-empty-output invariant at the concrete offline
run. -/
theorem C4_witness :
    eligibleList R1 ≠ [] ∧ keptList R1 ≠ [] ∧ collect R1 ≠ [] :=
  C4_nonempty_output R1 (by decide) (by decide)

theorem slotAt_ai_coarse (R : RunIn) (i : Nat) :
    (slotAt R i).ai_coarse = coarseScoreAt R i := by
  unfold slotAt
  cases fineResultAt R i with
  | some p => rfl
  | none =>
    dsimp only
    split
    · rfl
    · rfl

/-- C3 (counterexample): in the concrete early-accept run the single row's
fine stage never classified it (its call failed and `fineResultAt` is
`none`), yet the candidate's fine score is the coarse score 0.9, not 0, and
the total reflects it (`4.5·0.9 + 3.5·0.9 + 3.2 = 10.4`). -/
theorem C3_counterexample :
    (collect R2).map (fun c => c.ai_sim) = [9/10] ∧
    (collect R2).map (fun c => c.score) = [52/5] ∧
    fineResultAt R2 0 = none ∧
    earlyAcceptList R2 = [0] := by
  refine ⟨?_, ?_, ?_, ?_⟩ <;> with_unfolding_all decide

/-- C3 (amended): a definition never fine-classified gets fine score 0 —
*unless* it was early-accepted (coarse ≥ 0.82), in which case its coarse
score is substituted for the fine score; a definition outside the coarse
targets (or with the service unavailable) gets coarse score 0. -/
theorem C3_stage_defaults (R : RunIn) (i : Nat) (_ : i < R.rows.length) :
    (fineResultAt R i = none → (earlyAcceptList R).contains i = false →
      (slotAt R i).ai_sim = 0) ∧
    (fineResultAt R i = none → (earlyAcceptList R).contains i = true →
      (slotAt R i).ai_sim = coarseScoreAt R i) ∧
    ((aiTargets R).contains i = false ∨ R.net.avail = false →
      (slotAt R i).ai_coarse = 0) := by
  refine ⟨?_, ?_, ?_⟩
  · intro hf hea
    unfold slotAt
    rw [hf, hea]
    rfl
  · intro hf hea
    unfold slotAt
    rw [hf, hea]
    rfl
  · intro h
    have hcs : coarseScoreAt R i = 0 := by
      unfold coarseScoreAt
      rcases h with h | h
      · rw [h]
        simp
      · rw [h]
        simp
    rw [slotAt_ai_coarse, hcs]

/-- C3 (witness): the amended claim at the early-accept run — the
never-fine-classified row receives its coarse score 0.9 as fine score. -/
theorem C3_witness :
    (slotAt R2 0).ai_sim = coarseScoreAt R2 0 ∧ coarseScoreAt R2 0 = 9/10 :=
  ⟨(C3_stage_defaults R2 0 (by decide)).2.1 (by with_unfolding_all decide)
      (by with_unfolding_all decide),
   by with_unfolding_all decide⟩

/-- C5 (counterexample): with the service reachable but every classify
attempt failing to yield JSON (`Net.ask = none` — unreachable at request
time, timed out, or unparsable), `ai_coarse` degrades to 0.0 *and still
writes a 0.0 entry into the response cache*, contradicting the claim that
failed calls add no cache entry. -/
theorem C5_counterexample :
    (aiCoarse extId netAskFail [] "a" "b" "c").1 = .ok 0 ∧
    (aiCoarse extId netAskFail [] "a" "b" "c").2.1 =
      [(coarseKey extId "a" "b" "c", 0)] := by
  constructor
  · with_unfolding_all rfl
  · with_unfolding_all rfl

/-- C5 (amended): the cache is consulted before any network request (a hit
performs none at all) and successful calls store their result; but of the
failed calls only those failing the availability probe leave the cache
unchanged — a call that fails *after* the probe (no JSON obtained) stores a
zero entry. -/
theorem C5_cache_discipline (E : Ext) (net : Net) (cc : CoarseCache)
    (fc : FineCache) (a l d : String) (dc rf rk : List String) :
    (∀ kv, cc.find? (fun p => p.1 == coarseKey E a l d) = some kv →
      aiCoarse E net cc a l d = (.ok kv.2, cc, [])) ∧
    (cc.find? (fun p => p.1 == coarseKey E a l d) = none → net.avail = false →
      aiCoarse E net cc a l d = (.ok 0, cc, [.probe])) ∧
    (cc.find? (fun p => p.1 == coarseKey E a l d) = none → net.avail = true →
      net.ask AI_SYS_COARSE (coarseUser E a l d) = none →
      aiCoarse E net cc a l d =
        (.ok 0, (coarseKey E a l d, 0) :: cc,
         [.probe, .chat AI_SYS_COARSE (coarseUser E a l d)])) ∧
    (∀ s, cc.find? (fun p => p.1 == coarseKey E a l d) = none → net.avail = true →
      (aiCoarse E net cc a l d).1 = .ok s →
      (aiCoarse E net cc a l d).2.1 = (coarseKey E a l d, s) :: cc) ∧
    (∀ kv, fc.find? (fun p => p.1 == fineKey E a l d dc rf rk) = some kv →
      aiFine E net fc a l d dc rf rk =
        (.ok (kv.2.score, ⟨kv.2.dc, kv.2.rf, kv.2.rk⟩), fc, [])) ∧
    (fc.find? (fun p => p.1 == fineKey E a l d dc rf rk) = none →
      net.avail = false →
      aiFine E net fc a l d dc rf rk = (.ok (0, Ev.empty), fc, [.probe])) ∧
    (fc.find? (fun p => p.1 == fineKey E a l d dc rf rk) = none →
      net.avail = true →
      net.ask AI_SYS_FINE (fineUser E a l d dc rf rk) = none →
      aiFine E net fc a l d dc rf rk =
        (.ok (0, Ev.empty), (fineKey E a l d dc rf rk, ⟨0, [], [], []⟩) :: fc,
         [.probe, .chat AI_SYS_FINE (fineUser E a l d dc rf rk)])) ∧
    (∀ p, fc.find? (fun kv => kv.1 == fineKey E a l d dc rf rk) = none →
      net.avail = true → (aiFine E net fc a l d dc rf rk).1 = .ok p →
      ∃ q ev, (aiFine E net fc a l d dc rf rk).2.1 =
        (fineKey E a l d dc rf rk, ⟨q, ev.dc, ev.rf, ev.rk⟩) :: fc ∧
        p = (max 0 (min 1 q), ev)) := by
  refine ⟨?_, ?_, ?_, ?_, ?_, ?_, ?_, ?_⟩
  · intro kv h
    unfold aiCoarse
    dsimp only
    rw [h]
  · intro h hav
    unfold aiCoarse
    dsimp only
    rw [h, hav]
    rfl
  · intro h hav hask
    have hcf : coarseFresh E net a l d = .ok 0 := by
      unfold coarseFresh
      rw [hask]
      rfl
    unfold aiCoarse
    dsimp only
    rw [h, hav, hcf]
    rfl
  · intro s h hav hres
    unfold aiCoarse at hres ⊢
    dsimp only at hres ⊢
    rw [h, hav] at hres ⊢
    cases hcf : coarseFresh E net a l d with
    | ok s' =>
      rw [hcf] at hres
      have hss : s' = s := by simpa using hres
      subst hss
      rfl
    | error e =>
      rw [hcf] at hres
      exact absurd hres (by simp)
  · intro kv h
    unfold aiFine
    dsimp only
    rw [h]
  · intro h hav
    unfold aiFine
    dsimp only
    rw [h, hav]
    rfl
  · intro h hav hask
    have hff : fineFresh E net a l d dc rf rk = .ok (0, Ev.empty) := by
      unfold fineFresh
      rw [hask]
      rfl
    have hclamp : max (0 : ℚ) (min 1 0) = 0 := by norm_num
    unfold aiFine
    dsimp only
    rw [h, hav, hff]
    simp only [hclamp]
    rfl
  · intro p h hav hres
    unfold aiFine at hres ⊢
    dsimp only at hres ⊢
    rw [h, hav] at hres ⊢
    cases hff : fineFresh E net a l d dc rf rk with
    | ok p' =>
      rw [hff] at hres
      have hpp : (max 0 (min 1 p'.1), p'.2) = p := by simpa using hres
      exact ⟨p'.1, p'.2, rfl, hpp.symm⟩
    | error e =>
      rw [hff] at hres
      exact absurd hres (by simp)

/-- C5 (witness): the amended discipline at concrete inputs — a cache hit
performs no request, an offline miss stores nothing, and a post-probe
failure stores the zero entry. -/
theorem C5_witness :
    aiCoarse extId netAskFail [(coarseKey extId "a" "b" "c", 7/10)] "a" "b" "c" =
      (.ok (7/10), [(coarseKey extId "a" "b" "c", 7/10)], []) ∧
    aiCoarse extId netOffline [] "a" "b" "c" = (.ok 0, [], [.probe]) ∧
    aiCoarse extId netAskFail [] "a" "b" "c" =
      (.ok 0, [(coarseKey extId "a" "b" "c", 0)],
       [.probe, .chat AI_SYS_COARSE (coarseUser extId "a" "b" "c")]) :=
  ⟨(C5_cache_discipline extId netAskFail
      [(coarseKey extId "a" "b" "c", 7/10)] [] "a" "b" "c" [] [] []).1
      (coarseKey extId "a" "b" "c", 7/10) (by with_unfolding_all rfl),
   (C5_cache_discipline extId netOffline [] [] "a" "b" "c" [] [] []).2.1
      rfl rfl,
   (C5_cache_discipline extId netAskFail [] [] "a" "b" "c" [] [] []).2.2.1
      rfl rfl rfl⟩

/-- C6 (counterexample): a reachable service returning the JSON object
`{"score": "high"}` (well-formed JSON, non-numeric score) makes `ai_coarse`
raise `ValueError` out of `float(...)` to its caller instead of degrading
to 0.0. -/
theorem C6_counterexample :
    (aiCoarse extId netBadType [] "a" "b" "c").1 = .error .valueError := by
  with_unfolding_all rfl

/-- C6 (amended): both operations return 0.0 / empty evidence without
raising when the availability probe fails or when no JSON value could be
extracted from the reply (unreachable at request time, timeout, or
unparsable text); a reply that parses to a value of the wrong shape can
still raise. -/
theorem C6_degrade (E : Ext) (net : Net) (cc : CoarseCache) (fc : FineCache)
    (a l d : String) (dc rf rk : List String) :
    (cc.find? (fun p => p.1 == coarseKey E a l d) = none → net.avail = false →
      (aiCoarse E net cc a l d).1 = .ok 0) ∧
    (fc.find? (fun p => p.1 == fineKey E a l d dc rf rk) = none →
      net.avail = false →
      (aiFine E net fc a l d dc rf rk).1 = .ok (0, Ev.empty)) ∧
    (cc.find? (fun p => p.1 == coarseKey E a l d) = none →
      net.ask AI_SYS_COARSE (coarseUser E a l d) = none →
      (aiCoarse E net cc a l d).1 = .ok 0) ∧
    (fc.find? (fun p => p.1 == fineKey E a l d dc rf rk) = none →
      net.ask AI_SYS_FINE (fineUser E a l d dc rf rk) = none →
      (aiFine E net fc a l d dc rf rk).1 = .ok (0, Ev.empty)) := by
  have disc := C5_cache_discipline E net cc fc a l d dc rf rk
  refine ⟨?_, ?_, ?_, ?_⟩
  · intro h hav
    rw [disc.2.1 h hav]
  · intro h hav
    rw [disc.2.2.2.2.2.1 h hav]
  · intro h hask
    cases hav : net.avail with
    | false => rw [disc.2.1 h hav]
    | true => rw [disc.2.2.1 h hav hask]
  · intro h hask
    cases hav : net.avail with
    | false => rw [disc.2.2.2.2.2.1 h hav]
    | true => rw [disc.2.2.2.2.2.2.1 h hav hask]

/-- C6 (witness): the degradation cases at concrete inputs. -/
theorem C6_witness :
    (aiCoarse extId netOffline [] "a" "b" "c").1 = .ok 0 ∧
    (aiFine extId netOffline [] "a" "b" "c" [] [] []).1 = .ok (0, Ev.empty) ∧
    (aiCoarse extId netAskFail [] "a" "b" "c").1 = .ok 0 ∧
    (aiFine extId netAskFail [] "a" "b" "c" [] [] []).1 = .ok (0, Ev.empty) :=
  ⟨(C6_degrade extId netOffline [] [] "a" "b" "c" [] [] []).1 rfl rfl,
   (C6_degrade extId netOffline [] [] "a" "b" "c" [] [] []).2.1 rfl rfl,
   (C6_degrade extId netAskFail [] [] "a" "b" "c" [] [] []).2.2.1 rfl rfl,
   (C6_degrade extId netAskFail [] [] "a" "b" "c" [] [] []).2.2.2 rfl rfl⟩

/-- C7 (counterexample): a reachable service answering `{"score": 5}` makes
`ai_coarse` return 5 — outside [0,1] — because the coarse path never clamps
its score; and while the first `ai_fine` call clamps its fresh return
to 1, it stores the raw 5 in the cache, so the next identical fine request
replays 5 from the hit path — also outside [0,1]. -/
theorem C7_counterexample :
    (aiCoarse extId netBig [] "a" "b" "c").1 = .ok 5 ∧
    (aiFine extId netBig [] "a" "b" "c" [] [] []).1 = .ok (1, Ev.empty) ∧
    (aiFine extId netBig ((aiFine extId netBig [] "a" "b" "c" [] [] []).2.1)
      "a" "b" "c" [] [] []).1 = .ok (5, Ev.empty) ∧
    ¬((5 : ℚ) ≤ 1) := by
  refine ⟨?_, ?_, ?_, ?_⟩
  · with_unfolding_all rfl
  · with_unfolding_all rfl
  · with_unfolding_all rfl
  · norm_num

/-- C7 (amended): only `ai_fine`'s freshly computed result is clamped into
[0,1]; a fine cache hit returns the stored raw score, and `ai_coarse`
returns (and caches) the model's raw score unclamped. -/
theorem C7_clamping (E : Ext) (net : Net) (cc : CoarseCache) (fc : FineCache)
    (a l d : String) (dc rf rk : List String) :
    (∀ p, fc.find? (fun kv => kv.1 == fineKey E a l d dc rf rk) = none →
      (aiFine E net fc a l d dc rf rk).1 = .ok p → 0 ≤ p.1 ∧ p.1 ≤ 1) ∧
    (∀ kv, fc.find? (fun kv => kv.1 == fineKey E a l d dc rf rk) = some kv →
      (aiFine E net fc a l d dc rf rk).1 =
        .ok (kv.2.score, ⟨kv.2.dc, kv.2.rf, kv.2.rk⟩)) ∧
    (∀ q, cc.find? (fun p => p.1 == coarseKey E a l d) = none →
      net.avail = true → q ≠ 0 →
      net.ask AI_SYS_COARSE (coarseUser E a l d) =
        some (JVal.obj [("score", JVal.num q)]) →
      (aiCoarse E net cc a l d).1 = .ok q) := by
  refine ⟨?_, ?_, ?_⟩
  · intro p h hres
    unfold aiFine at hres
    dsimp only at hres
    rw [h] at hres
    cases hav : net.avail with
    | false =>
      rw [hav] at hres
      simp only at hres
      cases hres
      norm_num
    | true =>
      rw [hav] at hres
      cases hff : fineFresh E net a l d dc rf rk with
      | ok p' =>
        rw [hff] at hres
        simp only at hres
        cases hres
        constructor
        · exact le_max_left 0 _
        · exact max_le (by norm_num) (min_le_left 1 _)
      | error e =>
        rw [hff] at hres
        simp at hres
  · intro kv h
    unfold aiFine
    dsimp only
    rw [h]
  · intro q h hav hq0 hask
    have hcf : coarseFresh E net a l d = .ok q := by
      unfold coarseFresh
      rw [hask]
      have h2 : scoreOf (respData (some (JVal.obj [("score", JVal.num q)]))) =
          pyFloat (if (JVal.num q).truthy then JVal.num q else JVal.num 0) := rfl
      rw [h2]
      have ht : (JVal.num q).truthy = true := by
        simp [JVal.truthy, hq0]
      rw [if_pos ht]
      rfl
    unfold aiCoarse
    dsimp only
    rw [h, hav, hcf]
    rfl

/-- C7 (witness): the clamp at a concrete out-of-range fine reply — the
fresh fine call on a score of 5 returns 1 (clamped), within bounds. -/
theorem C7_witness :
    0 ≤ ((1 : ℚ), Ev.empty).1 ∧ ((1 : ℚ), Ev.empty).1 ≤ 1 :=
  (C7_clamping extId netBig [] [] "a" "b" "c" [] [] []).1 (1, Ev.empty) rfl
    (by with_unfolding_all rfl)

/-- C8: cosine bounds for `cos_dict` (real-valued idealization): for
vectors with non-negative entries (as every TF-IDF vector is) the score is
in [0,1]; on any vector with positive entries the self-similarity is
exactly 1; and an empty vector yields 0. -/
theorem C8_cosine_bounds :
    (∀ a b : VecK ℝ, (∀ k ∈ a.keys, 0 ≤ a.val k) → (∀ k ∈ b.keys, 0 ≤ b.val k) →
      0 ≤ cosDictR a b ∧ cosDictR a b ≤ 1) ∧
    (∀ v : VecK ℝ, v.keys ≠ ∅ → (∀ k ∈ v.keys, 0 < v.val k) → cosDictR v v = 1) ∧
    (∀ a b : VecK ℝ, a.keys = ∅ ∨ b.keys = ∅ → cosDictR a b = 0) := by
  refine ⟨?_, ?_, ?_⟩
  · intro a b ha hb
    unfold cosDictR cosDict
    by_cases hemp : a.keys = ∅ ∨ b.keys = ∅
    · rw [if_pos hemp]
      norm_num
    · rw [if_neg hemp]
      dsimp only
      have hdot0 : 0 ≤ (a.keys ∩ b.keys).sum (fun k => a.val k * b.val k) :=
        Finset.sum_nonneg (fun k hk =>
          mul_nonneg (ha k (Finset.mem_inter.mp hk).1) (hb k (Finset.mem_inter.mp hk).2))
      by_cases hz : Real.sqrt (a.keys.sum (fun k => a.val k * a.val k)) = 0 ∨
          Real.sqrt (b.keys.sum (fun k => b.val k * b.val k)) = 0
      · rw [if_pos hz]
        norm_num
      · rw [if_neg hz]
        push_neg at hz
        have hsa : 0 < Real.sqrt (a.keys.sum (fun k => a.val k * a.val k)) :=
          lt_of_le_of_ne (Real.sqrt_nonneg _) (Ne.symm hz.1)
        have hsb : 0 < Real.sqrt (b.keys.sum (fun k => b.val k * b.val k)) :=
          lt_of_le_of_ne (Real.sqrt_nonneg _) (Ne.symm hz.2)
        constructor
        · exact div_nonneg hdot0 (le_of_lt (mul_pos hsa hsb))
        · rw [div_le_one (mul_pos hsa hsb)]
          have hCS : (a.keys ∩ b.keys).sum (fun k => a.val k * b.val k) ≤
              Real.sqrt ((a.keys ∩ b.keys).sum (fun k => (a.val k) ^ 2)) *
              Real.sqrt ((a.keys ∩ b.keys).sum (fun k => (b.val k) ^ 2)) :=
            Real.sum_mul_le_sqrt_mul_sqrt _ _ _
          have hma : (a.keys ∩ b.keys).sum (fun k => (a.val k) ^ 2) ≤
              a.keys.sum (fun k => a.val k * a.val k) := by
            simp only [pow_two]
            exact Finset.sum_le_sum_of_subset_of_nonneg Finset.inter_subset_left
              (fun k _ _ => mul_self_nonneg _)
          have hmb : (a.keys ∩ b.keys).sum (fun k => (b.val k) ^ 2) ≤
              b.keys.sum (fun k => b.val k * b.val k) := by
            simp only [pow_two]
            exact Finset.sum_le_sum_of_subset_of_nonneg Finset.inter_subset_right
              (fun k _ _ => mul_self_nonneg _)
          calc (a.keys ∩ b.keys).sum (fun k => a.val k * b.val k)
              ≤ Real.sqrt ((a.keys ∩ b.keys).sum (fun k => (a.val k) ^ 2)) *
                Real.sqrt ((a.keys ∩ b.keys).sum (fun k => (b.val k) ^ 2)) := hCS
            _ ≤ Real.sqrt (a.keys.sum (fun k => a.val k * a.val k)) *
                Real.sqrt (b.keys.sum (fun k => b.val k * b.val k)) :=
                mul_le_mul (Real.sqrt_le_sqrt hma) (Real.sqrt_le_sqrt hmb)
                  (Real.sqrt_nonneg _) (Real.sqrt_nonneg _)
  · intro v hne hpos
    unfold cosDictR cosDict
    have hSpos : 0 < v.keys.sum (fun k => v.val k * v.val k) :=
      Finset.sum_pos (fun k hk => mul_pos (hpos k hk) (hpos k hk))
        (Finset.nonempty_iff_ne_empty.mpr hne)
    rw [if_neg (by simp [hne])]
    dsimp only
    rw [if_neg (by
      push_neg
      constructor <;> exact ne_of_gt (Real.sqrt_pos.mpr hSpos))]
    rw [Finset.inter_self, ← Real.sqrt_mul_self (le_of_lt hSpos)]
    rw [Real.sqrt_mul_self (le_of_lt hSpos)]
    rw [Real.mul_self_sqrt (le_of_lt hSpos)]
    exact div_self (ne_of_gt hSpos)
  · intro a b h
    unfold cosDictR cosDict
    rw [if_pos h]

/-- C8 (witness): the bounds, self-similarity and empty-vector cases at
concrete vectors. -/
theorem C8_witness :
    (0 ≤ cosDictR ⟨{"xa"}, fun _ => 2⟩ ⟨{"xa", "xb"}, fun _ => 3⟩ ∧
      cosDictR ⟨{"xa"}, fun _ => 2⟩ ⟨{"xa", "xb"}, fun _ => 3⟩ ≤ 1) ∧
    cosDictR ⟨{"xa", "xb"}, fun _ => 1⟩ ⟨{"xa", "xb"}, fun _ => 1⟩ = 1 ∧
    cosDictR ⟨∅, fun _ => 1⟩ ⟨{"xa"}, fun _ => 1⟩ = 0 :=
  ⟨C8_cosine_bounds.1 ⟨{"xa"}, fun _ => 2⟩ ⟨{"xa", "xb"}, fun _ => 3⟩
      (fun _ _ => by norm_num) (fun _ _ => by norm_num),
   C8_cosine_bounds.2.1 ⟨{"xa", "xb"}, fun _ => 1⟩ (by decide)
      (fun _ _ => by norm_num),
   C8_cosine_bounds.2.2 ⟨∅, fun _ => 1⟩ ⟨{"xa"}, fun _ => 1⟩ (Or.inl rfl)⟩

/-! Auxiliary facts about the whitespace collapse/strip scanners, for the
idempotence of `norm`. -/

theorem collapseGo_true_eq_false (l : List Char)
    (h : ∀ c, l.head? = some c → pyIsSpace c = false) :
    collapseGo true l = collapseGo false l := by
  cases l with
  | nil => rfl
  | cons c cs =>
    have hc := h c rfl
    simp [collapseGo, hc]

theorem collapseGo_onlySpace :
    ∀ (l : List Char) (b : Bool) (c : Char), c ∈ collapseGo b l →
      pyIsSpace c = true → c = ' ' := by
  intro l
  induction l with
  | nil => intro b c hc; simp [collapseGo] at hc
  | cons x xs ih =>
    intro b c hc hws
    unfold collapseGo at hc
    by_cases hx : pyIsSpace x
    · rw [if_pos hx] at hc
      cases b with
      | true =>
        simp only [if_true] at hc
        exact ih true c hc hws
      | false =>
        simp only [Bool.false_eq_true, if_false] at hc
        rcases List.mem_cons.mp hc with h | h
        · exact h
        · exact ih true c h hws
    · rw [if_neg hx] at hc
      rcases List.mem_cons.mp hc with h | h
      · rw [h] at hws
        exact absurd hws (by simp [hx])
      · exact ih false c h hws

theorem collapseGo_true_head :
    ∀ (l : List Char) (c : Char), (collapseGo true l).head? = some c →
      pyIsSpace c = false := by
  intro l
  induction l with
  | nil => intro c h; simp [collapseGo] at h
  | cons x xs ih =>
    intro c h
    unfold collapseGo at h
    by_cases hx : pyIsSpace x
    · rw [if_pos hx] at h
      simp only [if_true] at h
      exact ih c h
    · rw [if_neg hx] at h
      simp only [List.head?_cons, Option.some.injEq] at h
      rw [← h]
      simp [hx]

theorem collapseGo_chain :
    ∀ (l : List Char) (b : Bool),
      List.Chain' (fun a c => ¬(pyIsSpace a = true ∧ pyIsSpace c = true))
        (collapseGo b l) := by
  intro l
  induction l with
  | nil => intro b; simp [collapseGo]
  | cons x xs ih =>
    intro b
    unfold collapseGo
    by_cases hx : pyIsSpace x
    · rw [if_pos hx]
      cases b with
      | true =>
        simp only [if_true]
        exact ih true
      | false =>
        simp only [Bool.false_eq_true, if_false]
        rw [List.chain'_cons']
        refine ⟨?_, ih true⟩
        intro y hy
        have : pyIsSpace y = false := collapseGo_true_head xs y (by
          rwa [Option.mem_def] at hy)
        intro hcon
        rw [this] at hcon
        exact absurd hcon.2 (by simp)
    · rw [if_neg hx]
      rw [List.chain'_cons']
      refine ⟨?_, ih false⟩
      intro y _
      intro hcon
      exact hx hcon.1

theorem collapse_fix (l : List Char)
    (h1 : List.Chain' (fun a c => ¬(pyIsSpace a = true ∧ pyIsSpace c = true)) l)
    (h2 : ∀ c ∈ l, pyIsSpace c = true → c = ' ') :
    collapseGo false l = l := by
  induction l with
  | nil => rfl
  | cons x xs ih =>
    rw [List.chain'_cons'] at h1
    have hxs := ih h1.2 (fun c hc => h2 c (List.mem_cons_of_mem x hc))
    unfold collapseGo
    by_cases hx : pyIsSpace x
    · rw [if_pos hx]
      simp only [Bool.false_eq_true, if_false]
      have hx' : x = ' ' := h2 x (by simp) hx
      have hhead : ∀ c, xs.head? = some c → pyIsSpace c = false := by
        intro c hc
        have := h1.1 c (by rw [hc]; rfl)
        by_contra hcc
        simp only [Bool.not_eq_false] at hcc
        exact this ⟨hx, hcc⟩
      rw [collapseGo_true_eq_false xs hhead, hxs, hx']
    · rw [if_neg hx, hxs]

theorem dropWhile_head' {p : Char → Bool} :
    ∀ (l : List Char) (c : Char), (l.dropWhile p).head? = some c → p c = false := by
  intro l
  induction l with
  | nil => intro c h; simp at h
  | cons x xs ih =>
    intro c h
    rw [List.dropWhile_cons] at h
    by_cases hx : p x
    · rw [if_pos (by simp [hx])] at h
      exact ih c h
    · rw [if_neg (by simp [hx])] at h
      simp only [List.head?_cons, Option.some.injEq] at h
      rw [← h]
      simp [hx]

theorem dropWhile_eq_self_of_head {p : Char → Bool} (l : List Char)
    (h : ∀ c, l.head? = some c → p c = false) : l.dropWhile p = l := by
  cases l with
  | nil => rfl
  | cons x xs =>
    rw [List.dropWhile_cons, if_neg (by simp [h x rfl])]

theorem dropWhile_idem {p : Char → Bool} (l : List Char) :
    (l.dropWhile p).dropWhile p = l.dropWhile p :=
  dropWhile_eq_self_of_head _ (dropWhile_head' l)

theorem stripList_prefix_of_dropWhile (m : List Char) :
    stripList m <+: m.dropWhile pyIsSpace := by
  have h2 : ((m.dropWhile pyIsSpace).reverse.dropWhile pyIsSpace).reverse <+:
      (m.dropWhile pyIsSpace).reverse.reverse :=
    List.reverse_prefix.mpr (List.dropWhile_suffix pyIsSpace)
  rw [List.reverse_reverse] at h2
  exact h2

theorem isPrefix_head {l₁ l₂ : List Char} (h : l₁ <+: l₂) (c : Char)
    (hc : l₁.head? = some c) : l₂.head? = some c := by
  obtain ⟨t, ht⟩ := h
  cases l₁ with
  | nil => simp at hc
  | cons x xs =>
    simp only [List.head?_cons, Option.some.injEq] at hc
    rw [← ht]
    simp [hc]

theorem stripList_head (l : List Char) (c : Char)
    (hc : (stripList l).head? = some c) : pyIsSpace c = false := by
  have hpre := stripList_prefix_of_dropWhile l
  exact dropWhile_head' l c (isPrefix_head hpre c hc)

theorem stripList_idem (l : List Char) :
    stripList (stripList l) = stripList l := by
  have h1 : (stripList l).dropWhile pyIsSpace = stripList l :=
    dropWhile_eq_self_of_head _ (stripList_head l)
  show ((((stripList l).dropWhile pyIsSpace).reverse.dropWhile pyIsSpace)).reverse
      = stripList l
  rw [h1]
  unfold stripList
  rw [List.reverse_reverse, dropWhile_idem]

theorem stripList_sublist (l : List Char) : List.Sublist (stripList l) l := by
  have h1 : List.Sublist ((l.dropWhile pyIsSpace).reverse.dropWhile pyIsSpace).reverse
      (l.dropWhile pyIsSpace).reverse.reverse :=
    (List.dropWhile_sublist _).reverse
  rw [List.reverse_reverse] at h1
  exact h1.trans (List.dropWhile_sublist _)

theorem stripList_chain (l : List Char)
    (h : List.Chain' (fun a c => ¬(pyIsSpace a = true ∧ pyIsSpace c = true)) l) :
    List.Chain' (fun a c => ¬(pyIsSpace a = true ∧ pyIsSpace c = true))
      (stripList l) := by
  have h2 := h.suffix (List.dropWhile_suffix pyIsSpace)
  have h3 : List.Chain' (fun a c => ¬(pyIsSpace a = true ∧ pyIsSpace c = true))
      (l.dropWhile pyIsSpace).reverse := by
    rw [List.chain'_reverse]
    have : (flip fun a c => ¬(pyIsSpace a = true ∧ pyIsSpace c = true)) =
        fun a c => ¬(pyIsSpace a = true ∧ pyIsSpace c = true) := by
      funext a c
      simp [flip, and_comm]
    rw [this]
    exact h2
  have h4 := h3.suffix (List.dropWhile_suffix pyIsSpace)
  unfold stripList
  rw [List.chain'_reverse]
  have : (flip fun a c => ¬(pyIsSpace a = true ∧ pyIsSpace c = true)) =
      fun a c => ¬(pyIsSpace a = true ∧ pyIsSpace c = true) := by
    funext a c
    simp [flip, and_comm]
  rw [this]
  exact h4

/-- The fixed-point fact behind `norm`'s idempotence: stripping a collapsed
text yields a collapse- and strip-stable text. -/
theorem collapse_strip_stable (w : List Char) :
    collapseGo false (stripList (collapseGo false w)) =
      stripList (collapseGo false w) ∧
    stripList (stripList (collapseGo false w)) = stripList (collapseGo false w) := by
  constructor
  · apply collapse_fix
    · exact stripList_chain _ (collapseGo_chain w false)
    · intro c hc hws
      exact collapseGo_onlySpace w false c
        ((stripList_sublist _).subset hc) hws
  · exact stripList_idem _

/-- C9 (amended): `norm("")` is `""` unconditionally, and the normalizer is
idempotent on exactly those inputs whose first-pass output is fixed by
re-applying `NFKC` + `str.lower` (the stated hypothesis): the code's own
whitespace-collapse and strip steps are a fixpoint the second time around.
Universal idempotence is false for the real libraries, which violate the
hypothesis — Unicode normalization is not closed under case mapping (see
the counterexample). -/
theorem C9_norm_idempotent (E : Ext)
    (H : ∀ s, E.lower (E.nfkc (norm E s)) = norm E s) :
    (∀ x, norm E (norm E x) = norm E x) ∧ norm E "" = "" := by
  constructor
  · intro x
    by_cases hx : x = ""
    · subst hx
      rfl
    · have hnx : norm E x = pyStrip (collapseWs (E.lower (E.nfkc x))) := by
        unfold norm
        rw [if_neg hx]
      by_cases hu0 : norm E x = ""
      · rw [hu0]
        rfl
      · have hH : E.lower (E.nfkc (norm E x)) = norm E x := H x
        have step1 : norm E (norm E x) =
            pyStrip (collapseWs (E.lower (E.nfkc (norm E x)))) := by
          show (if norm E x = "" then ""
            else pyStrip (collapseWs (E.lower (E.nfkc (norm E x))))) = _
          rw [if_neg hu0]
        rw [step1, hH, hnx]
        have hlist := collapse_strip_stable (E.lower (E.nfkc x)).data
        show (⟨stripList (collapseGo false
            (stripList (collapseGo false (E.lower (E.nfkc x)).data)))⟩ : String) =
          ⟨stripList (collapseGo false (E.lower (E.nfkc x)).data)⟩
        rw [hlist.1, hlist.2]
  · rfl

/-- C9 (witness): idempotence evaluated at a concrete string (with the
identity instantiation of the Unicode maps, which agree with the real ones
on this ASCII input). -/
theorem C9_witness :
    norm extId (norm extId "ab  cd ") = norm extId "ab  cd " ∧
    norm extId "" = "" :=
  ⟨(C9_norm_idempotent extId (fun _ => rfl)).1 "ab  cd ",
   (C9_norm_idempotent extId (fun _ => rfl)).2⟩

/-- C9 (counterexample): with the real Unicode maps (`extReorder` records
their CPython-verified values on the reached strings), `norm` is not
idempotent.  For input U+0130 U+0327, NFKC leaves the string unchanged and
lowercasing U+0130 emits `i` + combining dot above *after* the combining
cedilla was already in place, so the first pass returns marks out of
canonical order; the second pass's NFKC reorders them, changing the
string. -/
theorem C9_counterexample :
    norm extReorder (norm extReorder capIDot) ≠ norm extReorder capIDot ∧
    norm extReorder capIDot = iDotCed ∧
    norm extReorder (norm extReorder capIDot) = iCedDot := by
  refine ⟨?_, ?_, ?_⟩ <;> decide

/-! ## Claim C10: negation polarity -/

theorem dedupFirst_go (l : List String) :
    ∀ (acc : List String × List String), (∀ x, x ∈ acc.1 ↔ x ∈ acc.2) →
    ∀ a, (a ∈ (l.foldl dedupStep acc).1 ↔ a ∈ acc.1 ∨ a ∈ l) := by
  induction l with
  | nil =>
    intro acc _ a
    simp
  | cons t ts ih =>
    intro acc hinv a
    rw [List.foldl_cons]
    by_cases ht : t ∈ acc.2
    · have hstep : dedupStep acc t = acc := by
        unfold dedupStep
        rw [if_pos ht]
      rw [hstep, ih acc hinv a, List.mem_cons]
      constructor
      · rintro (h | h)
        · exact Or.inl h
        · exact Or.inr (Or.inr h)
      · rintro (h | h | h)
        · exact Or.inl h
        · exact Or.inl (by rw [h]; exact (hinv t).mpr ht)
        · exact Or.inr h
    · have hstep : dedupStep acc t = (acc.1 ++ [t], t :: acc.2) := by
        unfold dedupStep
        rw [if_neg ht]
      rw [hstep]
      have hinv2 : ∀ x, x ∈ (acc.1 ++ [t], t :: acc.2).1 ↔
          x ∈ (acc.1 ++ [t], t :: acc.2).2 := by
        intro x
        show x ∈ acc.1 ++ [t] ↔ x ∈ t :: acc.2
        rw [List.mem_append, List.mem_singleton, List.mem_cons, hinv x]
        tauto
      rw [ih _ hinv2 a]
      show a ∈ acc.1 ++ [t] ∨ a ∈ ts ↔ a ∈ acc.1 ∨ a ∈ t :: ts
      rw [List.mem_append, List.mem_singleton, List.mem_cons]
      tauto

theorem mem_dedupFirst (l : List String) (a : String) :
    a ∈ dedupFirst l ↔ a ∈ l := by
  unfold dedupFirst
  rw [dedupFirst_go l ([], []) (by simp) a]
  simp

theorem fuzzyStep_snd_mono (E : Ext) (tn : String) (toks : List String)
    (acc : List String × List String) (t a : String) (ha : a ∈ acc.2) :
    a ∈ (fuzzyStep E tn toks acc t).2 := by
  unfold fuzzyStep
  cases hft : findTermIdx E tn.data toks t with
  | none => exact ha
  | some j =>
    show a ∈ (if isOkWindow tn.data j = true then (acc.1, acc.2 ++ [t])
      else (acc.1 ++ [t], acc.2)).2
    by_cases hw : isOkWindow tn.data j = true
    · rw [if_pos hw]
      exact List.mem_append_left _ ha
    · rw [if_neg hw]
      exact ha

theorem fuzzy_ok_go_snd (E : Ext) (tn : String) (toks : List String)
    (term : String) (idx : Nat)
    (h : findTermIdx E tn.data toks term = some idx)
    (hok : isOkWindow tn.data idx = true) :
    ∀ (l : List String) (acc : List String × List String),
      (term ∈ acc.2 ∨ term ∈ l) →
      term ∈ (l.foldl (fuzzyStep E tn toks) acc).2 := by
  intro l
  induction l with
  | nil =>
    intro acc hacc
    rcases hacc with h2 | h2
    · exact h2
    · simp at h2
  | cons t ts ih =>
    intro acc hacc
    rw [List.foldl_cons]
    rcases hacc with h2 | h2
    · exact ih _ (Or.inl (fuzzyStep_snd_mono E tn toks acc t term h2))
    · rcases List.mem_cons.mp h2 with h2 | h2
      · have hstep : term ∈ (fuzzyStep E tn toks acc t).2 := by
          rw [← h2]
          unfold fuzzyStep
          rw [h]
          show term ∈ (if isOkWindow tn.data idx then (acc.1, acc.2 ++ [term])
            else (acc.1 ++ [term], acc.2)).2
          rw [if_pos hok]
          exact List.mem_append_right _ (List.mem_singleton.mpr rfl)
        exact ih _ (Or.inl hstep)
      · exact ih _ (Or.inr h2)

theorem fuzzy_ok_go_fst (E : Ext) (tn : String) (toks : List String)
    (term : String) (idx : Nat)
    (h : findTermIdx E tn.data toks term = some idx)
    (hok : isOkWindow tn.data idx = true) :
    ∀ (l : List String) (acc : List String × List String),
      term ∉ acc.1 → term ∉ (l.foldl (fuzzyStep E tn toks) acc).1 := by
  intro l
  induction l with
  | nil =>
    intro acc hacc
    exact hacc
  | cons t ts ih =>
    intro acc hacc
    rw [List.foldl_cons]
    apply ih
    unfold fuzzyStep
    cases hft : findTermIdx E tn.data toks t with
    | none => exact hacc
    | some j =>
      show term ∉ (if isOkWindow tn.data j = true then (acc.1, acc.2 ++ [t])
        else (acc.1 ++ [t], acc.2)).1
      by_cases hw : isOkWindow tn.data j = true
      · rw [if_pos hw]
        exact hacc
      · rw [if_neg hw]
        intro hmem
        rcases List.mem_append.mp hmem with hm | hm
        · exact hacc hm
        · have ht : term = t := List.mem_singleton.mp hm
          rw [← ht] at hft
          rw [h] at hft
          injection hft with hij
          rw [hij] at hok
          exact hw hok

/-- A term found at a position whose ±12-character window holds an OK word
is recorded in the normal/negated list and never in the affirmed list. -/
theorem fuzzy_ok_classifies (E : Ext) (tn : String) (terms : List String)
    (term : String) (idx : Nat) (hmem : term ∈ terms)
    (h : findTermIdx E tn.data (pySplitWs tn) term = some idx)
    (hok : isOkWindow tn.data idx = true) :
    term ∈ (fuzzyHitsWithPolarity E tn terms).2 ∧
    term ∉ (fuzzyHitsWithPolarity E tn terms).1 := by
  unfold fuzzyHitsWithPolarity
  constructor
  · show term ∈ dedupFirst (terms.foldl (fuzzyStep E tn (pySplitWs tn)) ([], [])).2
    rw [mem_dedupFirst]
    exact fuzzy_ok_go_snd E tn (pySplitWs tn) term idx h hok terms ([], [])
      (Or.inr hmem)
  · show term ∉ dedupFirst (terms.foldl (fuzzyStep E tn (pySplitWs tn)) ([], [])).1
    rw [mem_dedupFirst]
    exact fuzzy_ok_go_fst E tn (pySplitWs tn) term idx h hok terms ([], [])
      (by simp)

/-- C10: negation handling.  In general, any term of the searched list that
is found at an index whose ±12-character window holds an OK/negation word is
classified normal/negated: it appears in the second (normal/negated) list of
`fuzzy_hits_with_polarity` and not in the first (affirmed) list, so it
contributes nothing to the weighted rule score, which counts only affirmed
lists.  Concretely, for input 「発熱なし」 against the diagnosis whose
defining characteristics are 「発熱」, the matcher returns no affirmed hit
and the one normal/negated hit 「発熱」, the rule raw score is 0, the
affirmed DC evidence is empty, and the normal/negated classification is
reported in the reasons. -/
theorem C10_negation_polarity :
    (∀ (E : Ext) (tn : String) (terms : List String) (term : String)
      (idx : Nat), term ∈ terms →
      findTermIdx E tn.data (pySplitWs tn) term = some idx →
      isOkWindow tn.data idx = true →
      term ∈ (fuzzyHitsWithPolarity E tn terms).2 ∧
      term ∉ (fuzzyHitsWithPolarity E tn terms).1) ∧
    fuzzyHitsWithPolarity extId (norm extId "発熱なし") ["発熱"] =
      ([], ["発熱"]) ∧
    (scoreMatchBlocks extId "発熱なし" rowFever).1 = 0 ∧
    (scoreMatchBlocks extId "発熱なし" rowFever).2.1.dc = [] ∧
    (scoreMatchBlocks extId "発熱なし" rowFever).2.2 =
      ["正常/陰性と判断: DC1 RF0 RK0"] := by
  refine ⟨fun E tn terms term idx hmem h hok =>
    fuzzy_ok_classifies E tn terms term idx hmem h hok, ?_, ?_, ?_, ?_⟩
  · with_unfolding_all decide
  · with_unfolding_all decide
  · with_unfolding_all decide
  · with_unfolding_all decide

/-- C10 (witness): the general classification fact of the claim theorem
instantiated at the concrete negation scenario. -/
theorem C10_witness :
    "発熱" ∈ (fuzzyHitsWithPolarity extId (norm extId "発熱なし")
      ["発熱"]).2 ∧
    "発熱" ∉ (fuzzyHitsWithPolarity extId (norm extId "発熱なし")
      ["発熱"]).1 :=
  C10_negation_polarity.1 extId (norm extId "発熱なし") ["発熱"] "発熱" 0
    (by simp) (by with_unfolding_all decide) (by with_unfolding_all decide)

end NurseDiag
